import Mathlib

/-!
# Verification of soundgraph-relate core components

Shallow embedding, in Lean 4, of the core data structures and operations of
the soundgraph-relate repository:

* the SQLite-backed entity cache (`src/sgr/cache/track_cache.py`):
  user-similarity and artist-relationship upserts with their canonical-ordering
  swap and `CHECK (id_a < id_b)` constraints, track/playlist caching, and the
  nested-transaction behaviour of `cache_playlist_tracks`;
* the paginator `DeepHarvestEngine._fetch_all_paginated` and the
  `deep_harvest` phase orchestration (`src/sgr/collectors/deep_harvest.py`);
* the post-ingestion user-similarity pass
  (`src/sgr/processors/post_ingestion.py`);
* the NetworkX-backed `PersonalGraph` view (`src/sgr/graph/personal_graph.py`):
  BFS graph construction, two-hop recommendations, JSON snapshot load.

Python floats are modelled as `ℚ`; machine integers as `Nat`/`Int` (no value in
these components approaches an overflow boundary, and SQLite integers are
64-bit while all ids are small).  Fallible operations return `Except String`.
-/

namespace SGR

/-- A Python dict key as used for NetworkX node ids and edge keys: either an
`int` (track node ids, auto-assigned multi-edge keys) or a `str` (namespaced
`"user_<id>"` / `"artist_<id>"` node ids, attribute names). -/
inductive PyKey where
  | pyInt (n : Nat)
  | pyStr (s : String)
deriving DecidableEq

/-! ## Entity cache: Layer 3 / Layer 4 relationship writes

From `TrackCache.add_user_similarity` (track_cache.py lines 650-679) and
`TrackCache.add_artist_relationship` (lines 755-783).  Both swap the id pair
into ascending order when the first id is strictly greater, then run an
`INSERT OR REPLACE` into a table whose schema (lines 132-162) carries a
`CHECK (id_a < id_b)` constraint; SQLite raises an `IntegrityError` and writes
nothing when the constraint fails, which happens exactly when the two ids are
equal (the swap is a no-op then). -/

/-- A row of the `user_similarity` table (schema lines 132-147). -/
structure SimRow where
  userIdA : Nat
  userIdB : Nat
  simType : String
  score : ℚ
  commonTracks : Nat
  totalTracksA : Nat
  totalTracksB : Nat
deriving DecidableEq

/-- A row of the `artist_relationships` table (schema lines 150-162). -/
structure ArtistRelRow where
  artistIdA : Nat
  artistIdB : Nat
  relType : String
  strength : ℚ
  evidenceCount : Nat
  metadata : Option String
deriving DecidableEq

/-- `INSERT OR REPLACE` keyed on `(user_id_a, user_id_b, similarity_type)`:
the old row with the same composite key (if any) is deleted and the new row
inserted. -/
def simUpsert (store : List SimRow) (r : SimRow) : List SimRow :=
  (store.filter fun x =>
    ¬(x.userIdA = r.userIdA ∧ x.userIdB = r.userIdB ∧ x.simType = r.simType)) ++ [r]

/-- `TrackCache.add_user_similarity` (lines 650-679): swap the pair (and the
per-user totals) into canonical order when `user_id_a > user_id_b`, then
`INSERT OR REPLACE`; the table's `CHECK (user_id_a < user_id_b)` rejects the
write (SQLite `IntegrityError`, no row stored) when the ids are equal. -/
def addUserSimilarity (store : List SimRow) (ua ub : Nat) (ty : String)
    (score : ℚ) (common ta tb : Nat) : Except String (List SimRow) :=
  let a := if ua > ub then ub else ua
  let b := if ua > ub then ua else ub
  let ta' := if ua > ub then tb else ta
  let tb' := if ua > ub then ta else tb
  if a < b then
    .ok (simUpsert store ⟨a, b, ty, score, common, ta', tb'⟩)
  else
    .error "IntegrityError: CHECK constraint failed: user_id_a < user_id_b"

/-- The connection state after running `add_user_similarity`: a failed
statement raises and leaves the table untouched. -/
def addUserSimilarityState (store : List SimRow) (ua ub : Nat) (ty : String)
    (score : ℚ) (common ta tb : Nat) : List SimRow :=
  match addUserSimilarity store ua ub ty score common ta tb with
  | .ok s => s
  | .error _ => store

/-- `INSERT OR REPLACE` keyed on `(artist_id_a, artist_id_b, relationship_type)`. -/
def artistRelUpsert (store : List ArtistRelRow) (r : ArtistRelRow) : List ArtistRelRow :=
  (store.filter fun x =>
    ¬(x.artistIdA = r.artistIdA ∧ x.artistIdB = r.artistIdB ∧ x.relType = r.relType)) ++ [r]

/-- `TrackCache.add_artist_relationship` (lines 755-783): swap into canonical
order when `artist_id_a > artist_id_b`, then `INSERT OR REPLACE`; the
`CHECK (artist_id_a < artist_id_b)` rejects an equal pair. -/
def addArtistRelationship (store : List ArtistRelRow) (aa ab : Nat) (ty : String)
    (strength : ℚ) (evidence : Nat) (metadata : Option String) :
    Except String (List ArtistRelRow) :=
  let a := if aa > ab then ab else aa
  let b := if aa > ab then aa else ab
  if a < b then
    .ok (artistRelUpsert store ⟨a, b, ty, strength, evidence, metadata⟩)
  else
    .error "IntegrityError: CHECK constraint failed: artist_id_a < artist_id_b"

/-- The connection state after running `add_artist_relationship`. -/
def addArtistRelationshipState (store : List ArtistRelRow) (aa ab : Nat) (ty : String)
    (strength : ℚ) (evidence : Nat) (metadata : Option String) : List ArtistRelRow :=
  match addArtistRelationship store aa ab ty strength evidence metadata with
  | .ok s => s
  | .error _ => store

/-! ## Crawl frontier / paginator

From `DeepHarvestEngine._fetch_all_paginated` (deep_harvest.py lines 493-529).
The page-fetch function is modelled as `Nat → Except Unit (List α)` (an
`Except.error` is a raised exception).  The Python `while` loop terminates
because every continuing iteration appends a batch of at least `page_size = 50`
records while the loop guard requires fewer than `max_results` accumulated, so
fuel `maxResults + 1` always suffices; the fuel-exhaustion branch returns the
accumulator like a loop exit.  The pair returned is
(result list, number of successful fetches — the `api_requests` counter, which
is incremented after `fetch_func` returns and hence not by a raising fetch). -/

/-- The loop body of `_fetch_all_paginated`: guard `len(all_results) <
max_results`; fetch; count the request; stop on an empty page, on a page
shorter than `page_size = 50`, or on a raised exception (caught, loop broken);
otherwise advance `offset` by 50 and sleep (a no-op here). -/
def fetchAllPaginatedAux (fetch : Nat → Except Unit (List α)) (maxResults : Nat) :
    Nat → List α → Nat → Nat → List α × Nat
  | 0, acc, _, requests => (acc, requests)
  | fuel + 1, acc, offset, requests =>
    if acc.length < maxResults then
      match fetch offset with
      | .error _ => (acc, requests)
      | .ok batch =>
        if batch.isEmpty then (acc, requests + 1)
        else
          if batch.length < 50 then (acc ++ batch, requests + 1)
          else fetchAllPaginatedAux fetch maxResults fuel (acc ++ batch)
            (offset + 50) (requests + 1)
    else (acc, requests)

/-- `DeepHarvestEngine._fetch_all_paginated`: fetch pages from offset 0 and
return `all_results[:max_results]` together with the request count. -/
def fetchAllPaginated (fetch : Nat → Except Unit (List α)) (maxResults : Nat) :
    List α × Nat :=
  let r := fetchAllPaginatedAux fetch maxResults (maxResults + 1) [] 0 0
  (r.1.take maxResults, r.2)

/-- The fetch function of the spec's termination test: pages of sizes
[50, 50, 30] at offsets 0, 50, 100, then empty pages. -/
def pagesC4a : Nat → Except Unit (List Nat) := fun offset =>
  if offset = 0 then .ok ((List.range 50).map (· + 1000))
  else if offset = 50 then .ok ((List.range 50).map (· + 2000))
  else if offset = 100 then .ok ((List.range 30).map (· + 3000))
  else .ok []

/-- The fetch function of the spec's cap-truncation test: an unbounded supply
of full 50-record pages. -/
def pagesC4b : Nat → Except Unit (List Nat) := fun offset =>
  .ok ((List.range 50).map (· + offset))

/-- A fetch function that returns one full page at offset 0 and raises at
offset 50 (witness input for the partial-failure property). -/
def pagesC5 : Nat → Except Unit (List Nat) := fun offset =>
  if offset = 0 then .ok (List.range 50) else .error ()

/-! ## Entity cache: track rows, playlist bridge rows, transactions

From `TrackCache.cache_track` / `cache_tracks_batch` / `cache_playlist_tracks`
(track_cache.py lines 214-315 and 385-407) and the `_transaction` context
manager (lines 203-212).  The Python sqlite3 connection is in its default
implicit-transaction mode: `conn.commit()` commits every statement executed on
the connection so far, `conn.rollback()` undoes the statements since the last
commit.  The connection is modelled as a committed snapshot plus a pending
working copy; `commit` promotes pending, `rollback` restores committed. -/

/-- A user payload as received from the remote API (the fields `cache_user`
reads); also the embedded `user` object of a track payload.  `id` is `none`
when the payload has no usable id (Python also treats id `0` as missing via
truthiness). -/
structure UserData where
  id : Option Nat
  username : Option String
  permalinkUrl : Option String
  followersCount : Nat
deriving DecidableEq

/-- A track payload as received from the remote API (the fields `cache_track`
and the harvest engine read).  `user` is the embedded artist object (`none`
models both an absent and an empty — falsy — dict). -/
structure TrackData where
  id : Option Nat
  title : Option String
  user : Option UserData
  genre : Option String
  tagList : List String
  duration : Option Nat
  playbackCount : Nat
  likesCount : Nat
  favoritingsCount : Nat
  permalinkUrl : Option String
  description : Option String
  labelName : Option String
deriving DecidableEq

/-- A row of the `tracks` table (schema lines 47-63); `rawJson` is the retained
full payload. -/
structure TrackRow where
  trackId : Nat
  title : String
  artistId : Option Nat
  artistName : String
  genre : Option String
  tags : List String
  durationMs : Option Nat
  playbackCount : Nat
  likeCount : Nat
  permalinkUrl : Option String
  rawJson : TrackData
deriving DecidableEq

/-- The row `cache_track` builds from a payload (defaulting semantics of lines
228-258; `likes_count or favoritings_count` falls through on a zero/absent like
count). -/
def trackRowOfData (d : TrackData) (tid : Nat) : TrackRow where
  trackId := tid
  title := d.title.getD "Untitled"
  artistId := d.user.bind (·.id)
  artistName := (d.user.bind (·.username)).getD "Unknown"
  genre := d.genre
  tags := d.tagList
  durationMs := d.duration
  playbackCount := d.playbackCount
  likeCount := if d.likesCount ≠ 0 then d.likesCount else d.favoritingsCount
  permalinkUrl := d.permalinkUrl
  rawJson := d

/-- A row of the `playlist_tracks` bridge table (schema lines 91-100). -/
structure PlaylistTrackRow where
  playlistId : Nat
  trackId : Nat
  position : Nat
deriving DecidableEq

/-- The slice of the database state these operations touch. -/
structure DB where
  tracks : List TrackRow
  playlistTracks : List PlaylistTrackRow
deriving DecidableEq

/-- `INSERT OR REPLACE INTO tracks` keyed on `track_id`. -/
def tracksUpsert (ts : List TrackRow) (r : TrackRow) : List TrackRow :=
  (ts.filter fun x => ¬ x.trackId = r.trackId) ++ [r]

/-- `INSERT OR REPLACE INTO playlist_tracks` keyed on `(playlist_id, track_id)`. -/
def ptUpsert (ps : List PlaylistTrackRow) (r : PlaylistTrackRow) : List PlaylistTrackRow :=
  (ps.filter fun x => ¬(x.playlistId = r.playlistId ∧ x.trackId = r.trackId)) ++ [r]

/-- The sqlite3 connection: the durable committed snapshot and the pending
working copy holding statements executed since the last commit. -/
structure Conn where
  committed : DB
  pending : DB
deriving DecidableEq

/-- `conn.commit()`: the pending statements become durable. -/
def Conn.commitTx (c : Conn) : Conn := ⟨c.pending, c.pending⟩

/-- `conn.rollback()`: the pending statements are discarded. -/
def Conn.rollbackTx (c : Conn) : Conn := ⟨c.committed, c.committed⟩

/-- `TrackCache.cache_tracks_batch` (lines 264-315): inside its own
`_transaction`, upsert a row per payload that has an id (payloads without an id
are skipped), then commit — a commit that is connection-wide. -/
def cacheTracksBatch (c : Conn) (tracksData : List TrackData) : Conn :=
  let pending := tracksData.foldl
    (fun db d =>
      match d.id with
      | none => db
      | some tid => { db with tracks := tracksUpsert db.tracks (trackRowOfData d tid) })
    c.pending
  Conn.commitTx ⟨c.committed, pending⟩

/-- The bridge-row loop of `cache_playlist_tracks` (lines 398-407): enumerate
the payloads (the position counts skipped payloads too), upsert a
`playlist_tracks` row per payload with an id.  `failAt` injects a raised
exception at the INSERT for the given position, modelling a mid-batch write
failure. -/
def bridgeRowsLoop (pid : Nat) (failAt : Option Nat) :
    List (TrackData × Nat) → DB → Except String DB
  | [], db => .ok db
  | (t, pos) :: rest, db =>
    match t.id with
    | none => bridgeRowsLoop pid failAt rest db
    | some tid =>
      if failAt = some pos then .error "sqlite3.OperationalError: disk I/O error"
      else bridgeRowsLoop pid failAt rest
        { db with playlistTracks := ptUpsert db.playlistTracks ⟨pid, tid, pos⟩ }

/-- Python `enumerate`: pair each element with its index. -/
def pyEnumerate (l : List α) : List (α × Nat) := l.enum.map (fun p => (p.2, p.1))

/-- `TrackCache.cache_playlist_tracks` (lines 385-407): inside `_transaction`,
first `cache_tracks_batch(tracks)` — whose own nested `_transaction` issues a
connection-wide commit — then insert the bridge rows; an exception in the
bridge loop triggers the outer rollback and re-raises.  Returns the final
connection state and the re-raised error, if any. -/
def cachePlaylistTracks (c : Conn) (pid : Nat) (tracks : List TrackData)
    (failAt : Option Nat) : Conn × Option String :=
  let c1 := cacheTracksBatch c tracks
  match bridgeRowsLoop pid failAt (pyEnumerate tracks) c1.pending with
  | .ok db => (Conn.commitTx ⟨c1.committed, db⟩, none)
  | .error e => (Conn.rollbackTx c1, some e)

/-- A concrete track payload with id 1 (failing input for the atomicity
claim). -/
def trackDataC2 : TrackData where
  id := some 1
  title := some "seed"
  user := some ⟨some 9, some "artist9", none, 0⟩
  genre := none
  tagList := []
  duration := some 1000
  playbackCount := 5
  likesCount := 2
  favoritingsCount := 0
  permalinkUrl := none
  description := none
  labelName := none

/-- The empty connection (fresh store, nothing pending). -/
def connEmpty : Conn := ⟨⟨[], []⟩, ⟨[], []⟩⟩

/-! ## The entity cache as read by the graph view and the processors

A relational snapshot of the remaining tables of `_create_schema`
(track_cache.py lines 42-201), as far as the verified components read them. -/

/-- A row of the `users` table (schema lines 66-75). -/
structure UserRow where
  userId : Nat
  username : String
  permalinkUrl : Option String
  followersCount : Nat
deriving DecidableEq

/-- A row of the `playlists` table (schema lines 78-88). -/
structure PlaylistRow where
  playlistId : Nat
  title : String
  creatorUserId : Option Nat
  trackCount : Nat
  permalinkUrl : Option String
deriving DecidableEq

/-- A row of the `related_tracks` table (schema lines 103-114). -/
structure RelRow where
  srcTrackId : Nat
  dstTrackId : Nat
  relationType : String
  weight : ℚ
deriving DecidableEq

/-- A row of the `user_engagements` table (schema lines 117-129). -/
structure EngRow where
  userId : Nat
  trackId : Nat
  engagementType : String
  engagementCount : Nat
  engagedAt : Option Int
deriving DecidableEq

/-- The cache database as read by the graph view and the post-ingestion
processor. -/
structure Cache where
  tracks : List TrackRow
  users : List UserRow
  playlists : List PlaylistRow
  playlistTracks : List PlaylistTrackRow
  relatedTracks : List RelRow
  engagements : List EngRow
  similarities : List SimRow
  artistRels : List ArtistRelRow
deriving DecidableEq

/-- `TrackCache.get_track` (lines 317-339): point lookup by primary key. -/
def getTrack (c : Cache) (tid : Nat) : Option TrackRow :=
  c.tracks.find? fun t => t.trackId = tid

/-! ## Post-ingestion user-similarity pass

From `PostIngestionProcessor._compute_user_similarities`
(post_ingestion.py lines 106-164) with `TrackCache.get_user_liked_tracks`
(track_cache.py lines 618-646). -/

/-- Thresholds of `PostIngestionProcessor.__init__` (defaults
`min_common_tracks = 3`, `min_similarity_score = 0.1`). -/
structure PIConfig where
  minCommonTracks : Nat
  minSimilarityScore : ℚ

/-- SQLite `ORDER BY engaged_at DESC` comparison: `NULL` sorts below every
integer, so it comes last in descending order. -/
def engagedAtLE (x y : Option Int) : Bool :=
  match x, y with
  | none, _ => true
  | some _, none => false
  | some a, some b => a ≤ b

/-- Insertion step of a descending sort on the `engaged_at` key. -/
def insertEngagedAtDesc (a : TrackRow × Option Int) :
    List (TrackRow × Option Int) → List (TrackRow × Option Int)
  | [] => [a]
  | b :: rest =>
    if engagedAtLE b.2 a.2 then a :: b :: rest
    else b :: insertEngagedAtDesc a rest

/-- Descending sort on the `engaged_at` key (SQLite leaves the order of ties
unspecified; any consistent order is a faithful model because the caller turns
the rows into a set). -/
def sortByEngagedAtDesc (l : List (TrackRow × Option Int)) :
    List (TrackRow × Option Int) :=
  l.foldr insertEngagedAtDesc []

/-- `TrackCache.get_user_liked_tracks` (lines 618-646): the user's `like`
engagement rows joined with the `tracks` table (a like of an uncached track
contributes nothing), ordered by `engaged_at` descending, truncated to
`limit`. -/
def getUserLikedTracks (c : Cache) (u : Nat) (limit : Nat) : List TrackRow :=
  let rows := (c.engagements.filter fun e =>
      e.userId = u ∧ e.engagementType = "like").filterMap
    fun e => (c.tracks.find? fun t => t.trackId = e.trackId).map
      fun t => (t, e.engagedAt)
  ((sortByEngagedAtDesc rows).map (·.1)).take limit

/-- The liked-track-id set `{t['track_id'] for t in tracks}` the similarity
pass computes for a user (lines 127-128 and 136-137; the pass passes
`limit=10000`). -/
def likedTrackIdsSet (c : Cache) (u : Nat) : Finset Nat :=
  ((getUserLikedTracks c u 10000).map (·.trackId)).toFinset

/-- `SELECT DISTINCT user_id FROM user_engagements WHERE engagement_type =
'like'` (lines 114-120).  SQLite returns the distinct ids in an unspecified
order; the order only decides which orientation of each unordered pair reaches
`add_user_similarity`, which canonicalises it, so any deduplication is a
faithful model. -/
def userIdsWithLikes (c : Cache) : List Nat :=
  ((c.engagements.filter fun e => e.engagementType = "like").map (·.userId)).dedup

/-- The ordered pairs visited by `for i, user_a in enumerate(user_ids): for
user_b in user_ids[i+1:]` — every element paired with every later element. -/
def pairsAfter : List Nat → List (Nat × Nat)
  | [] => []
  | a :: rest => (rest.map fun b => (a, b)) ++ pairsAfter rest

/-- The inner-loop computation for one pair (lines 127-156): skip when either
liked-set is below `min_common_tracks`; compute intersection, union and the
Jaccard score; return the `add_user_similarity` argument tuple
(score, common, total_a, total_b) exactly when the persistence conditions
hold. -/
def pairRowArgs (cfg : PIConfig) (c : Cache) (a b : Nat) :
    Option (ℚ × Nat × Nat × Nat) :=
  let A := likedTrackIdsSet c a
  if A.card < cfg.minCommonTracks then none
  else
    let B := likedTrackIdsSet c b
    if B.card < cfg.minCommonTracks then none
    else
      if cfg.minCommonTracks ≤ (A ∩ B).card ∧ 0 < (A ∪ B).card then
        let jaccard : ℚ := ((A ∩ B).card : ℚ) / ((A ∪ B).card : ℚ)
        if cfg.minSimilarityScore ≤ jaccard then
          some (jaccard, (A ∩ B).card, A.card, B.card)
        else none
      else none

/-- The row `add_user_similarity` stores for a given argument tuple (after its
canonicalising swap). -/
def canonicalSimRow (ua ub : Nat) (ty : String) (score : ℚ)
    (common ta tb : Nat) : SimRow :=
  if ua > ub then ⟨ub, ua, ty, score, common, tb, ta⟩
  else ⟨ua, ub, ty, score, common, ta, tb⟩

/-- One inner-loop step of the pass: when the pair qualifies, store the row
through `add_user_similarity`, otherwise leave the table alone. -/
def simStep (cfg : PIConfig) (c : Cache) (st : List SimRow) (p : Nat × Nat) :
    List SimRow :=
  match pairRowArgs cfg c p.1 p.2 with
  | none => st
  | some (score, common, ta, tb) =>
    addUserSimilarityState st p.1 p.2 "jaccard_likes" score common ta tb

/-- `PostIngestionProcessor._compute_user_similarities`: walk every ordered
pair of distinct engaged users (each unordered pair once) and store the
qualifying rows through `add_user_similarity` into the cache's
`user_similarity` table. -/
def computeUserSimilarities (cfg : PIConfig) (c : Cache) : List SimRow :=
  (pairsAfter (userIdsWithLikes c)).foldl (simStep cfg c) c.similarities

/-- A minimal track payload with the given id (helper for concrete caches). -/
def mkTrackRow (tid : Nat) : TrackRow :=
  trackRowOfData
    { id := some tid
      title := some ("t" ++ toString tid)
      user := none
      genre := none
      tagList := []
      duration := none
      playbackCount := 0
      likesCount := 0
      favoritingsCount := 0
      permalinkUrl := none
      description := none
      labelName := none }
    tid

/-- A `like` engagement row (helper for concrete caches). -/
def mkLike (u tid : Nat) : EngRow :=
  ⟨u, tid, "like", 1, none⟩

/-- The empty cache. -/
def cacheEmpty : Cache := ⟨[], [], [], [], [], [], [], []⟩

/-- The concrete cache of the spec's Jaccard example: user 1 likes tracks
{1,2,3,4} and user 2 likes tracks {3,4,5,6}, all six tracks cached. -/
def cacheC7 : Cache :=
  { cacheEmpty with
    tracks := [mkTrackRow 1, mkTrackRow 2, mkTrackRow 3, mkTrackRow 4,
      mkTrackRow 5, mkTrackRow 6]
    engagements := [mkLike 1 1, mkLike 1 2, mkLike 1 3, mkLike 1 4,
      mkLike 2 3, mkLike 2 4, mkLike 2 5, mkLike 2 6] }

/-- The row the similarity pass stores for an ordered pair, when the pair
qualifies: the `pairRowArgs` tuple pushed through `add_user_similarity`'s
canonicalisation. -/
def simWriteRow (cfg : PIConfig) (c : Cache) (a b : Nat) : Option SimRow :=
  (pairRowArgs cfg c a b).map fun args =>
    canonicalSimRow a b "jaccard_likes" args.1 args.2.1 args.2.2.1 args.2.2.2

/-! ## The NetworkX `MultiDiGraph` as `PersonalGraph` uses it

From personal_graph.py.  Node ids are `PyKey`s (raw ints for tracks,
namespaced strings for users/artists).  Node attributes are modelled as a
record of optional fields: an attribute that was never set reads as `None`
through `dict.get`, exactly like an `Option` that is `none`.  The adjacency
keeps, per ordered node pair, the keyed inner dict of parallel edges; NetworkX
auto-assigns the integer keys 0, 1, … in insertion order. -/

/-- Attributes carried by an edge (`weight`, `relation`, `layer`; the
multi-layer edges' extra fields are not needed by the verified queries). -/
structure EdgeData where
  weight : ℚ
  relation : String
  layer : Nat
deriving DecidableEq

/-- Attributes carried by a node; every field `none` models the empty attribute
dict of a node created implicitly by `add_edge`. -/
structure NodeData where
  nodeType : Option String := none
  title : Option String := none
  artistName : Option String := none
  artistId : Option Nat := none
  genre : Option String := none
  playbackCount : Option Nat := none
  likeCount : Option Nat := none
  permalinkUrl : Option String := none
  userId : Option Nat := none
  username : Option String := none
  followersCount : Option Nat := none
deriving DecidableEq

/-- The multigraph: insertion-ordered node list (unique keys) and
insertion-ordered adjacency entries (unique ordered pairs), each holding the
keyed dict of parallel edges. -/
structure MGraph where
  nodes : List (PyKey × NodeData)
  adj : List (PyKey × PyKey × List (PyKey × EdgeData))
deriving DecidableEq

/-- The empty `nx.MultiDiGraph()`. -/
def emptyGraph : MGraph := ⟨[], []⟩

/-- Ensure a node exists (with an empty attribute dict), as `add_edge` does for
unseen endpoints. -/
def addNodeIfAbsent (g : MGraph) (n : PyKey) : MGraph :=
  if (g.nodes.find? fun p => p.1 = n).isSome then g
  else { g with nodes := g.nodes ++ [(n, {})] }

/-- `graph.add_node(n, **attrs)`: update the node's attributes in place, or
append a new node.  The callers only ever set attributes on nodes whose
attribute dict is still empty, so replacing is the same as NetworkX's merge. -/
def setNode (g : MGraph) (n : PyKey) (d : NodeData) : MGraph :=
  if (g.nodes.find? fun p => p.1 = n).isSome then
    { g with nodes := g.nodes.map fun p => if p.1 = n then (n, d) else p }
  else { g with nodes := g.nodes ++ [(n, d)] }

/-- `graph[u][v]`: the keyed dict of parallel edges from `u` to `v` (empty when
the pair has no edges — the callers only index existing pairs). -/
def edgeKeyDict (g : MGraph) (u v : PyKey) : List (PyKey × EdgeData) :=
  ((g.adj.find? fun e => e.1 = u ∧ e.2.1 = v).map (·.2.2)).getD []

/-- `graph.add_edge(u, v, **attrs)`: create missing endpoints, then append the
edge to the pair's keyed dict under the next auto-assigned integer key. -/
def addEdge (g : MGraph) (u v : PyKey) (d : EdgeData) : MGraph :=
  let g := addNodeIfAbsent g u
  let g := addNodeIfAbsent g v
  if (g.adj.find? fun e => e.1 = u ∧ e.2.1 = v).isSome then
    { g with adj := g.adj.map fun e =>
        if e.1 = u ∧ e.2.1 = v then (u, v, e.2.2 ++ [(PyKey.pyInt e.2.2.length, d)])
        else e }
  else { g with adj := g.adj ++ [(u, v, [(PyKey.pyInt 0, d)])] }

/-- `graph.neighbors(u)` on a `MultiDiGraph`: the successors of `u`, each once,
in first-edge insertion order. -/
def neighborsOf (g : MGraph) (u : PyKey) : List PyKey :=
  (g.adj.filter fun e => e.1 = u).map (·.2.1)

/-- `graph.nodes[n]`: the attribute record (empty for the callers' only
out-of-graph reads). -/
def nodeAttrs (g : MGraph) (n : PyKey) : NodeData :=
  ((g.nodes.find? fun p => p.1 = n).map (·.2)).getD {}

/-- `n in graph`. -/
def hasNode (g : MGraph) (n : PyKey) : Bool :=
  (g.nodes.find? fun p => p.1 = n).isSome

/-- There is at least one edge from `u` to `v`. -/
def hasEdge (g : MGraph) (u v : PyKey) : Prop :=
  ∃ e ∈ g.adj, e.1 = u ∧ e.2.1 = v

/-! ## `PersonalGraph.get_recommendations` (personal_graph.py lines 417-478) -/

/-- The Python line `weight = self.graph[neighbor][candidate].get("weight", 1.0)`
(line 455): on a `MultiDiGraph`, `graph[neighbor][candidate]` is the keyed dict
of parallel edges, whose keys are the auto-assigned *integers* — so looking up
the *string* key `"weight"` always misses and the call yields the default 1.0.
(The edge's actual weight attribute lives one level deeper and is never read.
A hit is impossible for a graph built by this class; the branch is kept only to
make the lookup explicit.) -/
def recWeightLookup (g : MGraph) (u v : PyKey) : ℚ :=
  match (edgeKeyDict g u v).find? fun p => p.1 = PyKey.pyStr "weight" with
  | some _ => 0
  | none => 1

/-- The candidate accumulator of `get_recommendations` (lines 441-456): an
insertion-ordered dict candidate ↦ (set of connecting direct neighbors, summed
weight).  Candidates equal to the seed or to a direct neighbor are skipped. -/
def recAccumulate (g : MGraph) (t : PyKey) (dn : List PyKey) :
    List (PyKey × (List PyKey × ℚ)) :=
  dn.foldl
    (fun cands neighbor =>
      (neighborsOf g neighbor).foldl
        (fun cands candidate =>
          if candidate = t ∨ candidate ∈ dn then cands
          else
            let entry := ((cands.find? fun p => p.1 = candidate).map (·.2)).getD ([], 0)
            let entry' := ((if neighbor ∈ entry.1 then entry.1 else entry.1 ++ [neighbor]),
              entry.2 + recWeightLookup g neighbor candidate)
            if (cands.find? fun p => p.1 = candidate).isSome then
              cands.map fun p => if p.1 = candidate then (candidate, entry') else p
            else cands ++ [(candidate, entry')])
        cands)
    []

/-- One recommendation record (lines 466-474). -/
structure RecEntry where
  trackId : PyKey
  title : Option String
  artistName : Option String
  genre : Option String
  commonNeighbors : Nat
  score : ℚ
  permalinkUrl : Option String
deriving DecidableEq

/-- Stable descending insertion on the score (Python `list.sort(key=...,
reverse=True)` is stable). -/
def insertRecByScore (a : RecEntry) : List RecEntry → List RecEntry
  | [] => [a]
  | b :: rest =>
    if b.score ≤ a.score then a :: b :: rest
    else b :: insertRecByScore a rest

/-- `recommendations.sort(key=lambda x: x["score"], reverse=True)`. -/
def sortRecsByScoreDesc (l : List RecEntry) : List RecEntry :=
  l.foldr insertRecByScore []

/-- `PersonalGraph.get_recommendations` (lines 417-478): collect the distance-2
candidates, drop those with fewer than `min_common_neighbors` distinct
connecting neighbors, score each as `total_weight * num_common`, and return
them sorted by score descending, capped at `limit`. -/
def getRecommendations (g : MGraph) (trackId : Nat) (limit : Nat)
    (minCommonNeighbors : Nat) : List RecEntry :=
  let t := PyKey.pyInt trackId
  if ¬ hasNode g t then []
  else
    let dn := neighborsOf g t
    let cands := recAccumulate g t dn
    let recs := cands.filterMap fun p =>
      if p.2.1.length < minCommonNeighbors then none
      else
        let nd := nodeAttrs g p.1
        some ⟨p.1, nd.title, nd.artistName, nd.genre, p.2.1.length,
          p.2.2 * (p.2.1.length : ℚ), nd.permalinkUrl⟩
    (sortRecsByScoreDesc recs).take limit

/-- The spec's recommendation example as a graph: seed 1 with direct neighbors
2 and 3; candidate 4 reached from 2 (edge weight 0.5) and from 3 (edge weight
0.3). -/
def graphC1 : MGraph :=
  addEdge (addEdge (addEdge (addEdge emptyGraph
    (.pyInt 1) (.pyInt 2) ⟨1, "related", 1⟩)
    (.pyInt 1) (.pyInt 3) ⟨1, "related", 1⟩)
    (.pyInt 2) (.pyInt 4) ⟨1/2, "related", 1⟩)
    (.pyInt 3) (.pyInt 4) ⟨3/10, "related", 1⟩

/-! ## `PersonalGraph.build_from_seed` (personal_graph.py lines 56-135)

Embedded in its default configuration: `layers = None` defaults to Layer 1
only, and `enable_multi_layer` defaults to `False` in the constructor, so the
Layer 2/3/4 branches are dead.  The BFS is batched: pop up to `batch_size`
unvisited in-depth entries, then process each — add the track node, and when
`depth < max_depth` add an edge per related track (capped at 20, ordered by
weight descending) and enqueue unseen neighbors at `depth + 1`. -/

/-- A row of `get_related_tracks`' JOIN: the destination track's columns plus
the relation's type and weight (track_cache.py lines 442-483). -/
structure RelatedResult where
  track : TrackRow
  relationType : String
  weight : ℚ
deriving DecidableEq

/-- The JOIN of `related_tracks` with `tracks` for a source track: relations
whose destination is not cached contribute nothing. -/
def relatedRowsOf (c : Cache) (tid : Nat) : List RelatedResult :=
  (c.relatedTracks.filter fun r => r.srcTrackId = tid).filterMap
    fun r => (c.tracks.find? fun t => t.trackId = r.dstTrackId).map
      fun t => ⟨t, r.relationType, r.weight⟩

/-- Insertion step of the `ORDER BY rt.weight DESC` sort (SQLite leaves tie
order unspecified; this keeps earlier rows first). -/
def insertRelByWeightDesc (a : RelatedResult) : List RelatedResult → List RelatedResult
  | [] => [a]
  | b :: rest =>
    if b.weight ≤ a.weight then a :: b :: rest
    else b :: insertRelByWeightDesc a rest

/-- `TrackCache.get_related_tracks` (lines 442-483, no type filter): joined
rows ordered by weight descending, truncated to `limit`. -/
def getRelatedTracks (c : Cache) (tid : Nat) (limit : Nat) : List RelatedResult :=
  ((relatedRowsOf c tid).foldr insertRelByWeightDesc []).take limit

/-- The `PersonalGraph` instance state: the NetworkX graph and the three
internal node-id sets (`_track_nodes`, `_user_nodes`, `_artist_nodes`).
`_track_nodes` and `_artist_nodes` hold raw ids during building but whole node
keys after `load_from_json`, hence `PyKey`; `_user_nodes` only ever holds raw
user ids. -/
structure PGraph where
  graph : MGraph
  trackNodes : List PyKey
  userNodes : List Nat
  artistNodes : List PyKey
deriving DecidableEq

/-- A freshly constructed `PersonalGraph` (empty graph, empty node sets). -/
def emptyPGraph : PGraph := ⟨emptyGraph, [], [], []⟩

/-- The node attributes `_add_track_node` sets (lines 151-168). -/
def trackNodeData (t : TrackRow) : NodeData where
  nodeType := some "track"
  title := some t.title
  artistName := some t.artistName
  artistId := t.artistId
  genre := t.genre
  playbackCount := some t.playbackCount
  likeCount := some t.likeCount
  permalinkUrl := t.permalinkUrl

/-- `PersonalGraph._add_track_node` (lines 151-168): skip when already
tracked, otherwise set the attributes and record the id. -/
def addTrackNode (pg : PGraph) (tid : Nat) (t : TrackRow) : PGraph :=
  if PyKey.pyInt tid ∈ pg.trackNodes then pg
  else
    { pg with
      graph := setNode pg.graph (PyKey.pyInt tid) (trackNodeData t)
      trackNodes := pg.trackNodes ++ [PyKey.pyInt tid] }

/-- `PersonalGraph._add_user_node` (lines 170-194): skip when already tracked,
otherwise add the namespaced `"user_<id>"` node and record the raw id. -/
def addUserNode (pg : PGraph) (uid : Nat) (u : Option UserRow) : PGraph :=
  if uid ∈ pg.userNodes then pg
  else
    { pg with
      graph := setNode pg.graph (PyKey.pyStr ("user_" ++ toString uid))
        { nodeType := some "user"
          userId := some uid
          username := some (match u with
            | some ur => ur.username
            | none => "User " ++ toString uid)
          followersCount := some (match u with
            | some ur => ur.followersCount
            | none => 0) }
      userNodes := pg.userNodes ++ [uid] }

/-- The mutable BFS state of `build_from_seed`: the graph under construction,
the visited set and the frontier queue (FIFO: pop at the head, append at the
tail). -/
structure BfsState where
  pg : PGraph
  visited : List Nat
  queue : List (Nat × Nat)
deriving DecidableEq

/-- The inner collection loop (lines 85-89): pop entries while the queue is
non-empty and the batch is not full, keeping (and marking visited) those that
are unvisited and within `max_depth`.  Returns (batch, visited, remaining
queue). -/
def collectBatch (batchSize maxDepth : Nat) :
    List (Nat × Nat) → List Nat → List (Nat × Nat) →
    List (Nat × Nat) × List Nat × List (Nat × Nat)
  | batch, visited, [] => (batch, visited, [])
  | batch, visited, (t, d) :: rest =>
    if batch.length < batchSize then
      if t ∉ visited ∧ d ≤ maxDepth then
        collectBatch batchSize maxDepth (batch ++ [(t, d)]) (visited ++ [t]) rest
      else collectBatch batchSize maxDepth batch visited rest
    else (batch, visited, (t, d) :: rest)

/-- The body of the Layer-1 expansion loop (lines 105-121): add the edge from
the current track to the related track, then enqueue the related id at the next
depth unless already visited. -/
def bfsRelStep (srcId depth : Nat) (st : BfsState) (rel : RelatedResult) :
    BfsState :=
  let st := { st with pg := { st.pg with
    graph := addEdge st.pg.graph (PyKey.pyInt srcId)
      (PyKey.pyInt rel.track.trackId) ⟨rel.weight, rel.relationType, 1⟩ } }
  if rel.track.trackId ∈ st.visited then st
  else { st with queue := st.queue ++ [(rel.track.trackId, depth + 1)] }

/-- Processing one batch entry (lines 95-121, Layer 1 only): skip uncached
tracks; add the track node; when `depth < max_depth`, add an edge per related
track (limit 20) and enqueue unseen related ids at `depth + 1`. -/
def processItem (c : Cache) (maxDepth : Nat) (st : BfsState) (item : Nat × Nat) :
    BfsState :=
  match getTrack c item.1 with
  | none => st
  | some td =>
    let st := { st with pg := addTrackNode st.pg item.1 td }
    if item.2 < maxDepth then
      (getRelatedTracks c item.1 20).foldl (bfsRelStep item.1 item.2) st
    else st

/-- The outer BFS loop (lines 82-131): collect a batch; stop when it is empty;
otherwise process its entries in order and loop.  `fuel` bounds the number of
outer iterations; every continuing iteration marks at least one new id visited,
and ids only come from the seed and the `related_tracks` rows, so the caller's
fuel of `c.relatedTracks.length + 2` can never run out. -/
def bfsLoop (c : Cache) (maxDepth batchSize : Nat) : Nat → BfsState → BfsState
  | 0, st => st
  | fuel + 1, st =>
    let r := collectBatch batchSize maxDepth [] st.visited st.queue
    if r.1.isEmpty then { st with visited := r.2.1, queue := r.2.2 }
    else
      bfsLoop c maxDepth batchSize fuel
        (r.1.foldl (processItem c maxDepth) { st with visited := r.2.1, queue := r.2.2 })

/-- `PersonalGraph.build_from_seed` (lines 56-135) in the default Layer-1-only
configuration: BFS from the seed with the given depth bound and batch size. -/
def buildFromSeed (c : Cache) (seedTrackId : Nat) (maxDepth : Nat)
    (batchSize : Nat) : PGraph :=
  (bfsLoop c maxDepth batchSize (c.relatedTracks.length + 2)
    ⟨emptyPGraph, [], [(seedTrackId, 0)]⟩).pg

/-- A cache with a related-track chain 1 → 2 → 3 deeper than one hop (witness
input for the depth bound). -/
def cacheC8 : Cache :=
  { cacheEmpty with
    tracks := [mkTrackRow 1, mkTrackRow 2, mkTrackRow 3]
    relatedTracks := [⟨1, 2, "co_playlist", 1⟩, ⟨2, 3, "co_playlist", 1⟩] }

/-! ## Graph snapshot export/import (personal_graph.py lines 688-731) -/

/-- The node-link JSON snapshot, attribute-exact (`nx.node_link_data` /
`nx.node_link_graph` round-trip node and edge attributes unchanged). -/
structure Snapshot where
  nodes : List (PyKey × NodeData)
  links : List (PyKey × PyKey × List (PyKey × EdgeData))
deriving DecidableEq

/-- `PersonalGraph.export_to_json`: `nx.node_link_data(self.graph)`. -/
def exportToJson (g : MGraph) : Snapshot := ⟨g.nodes, g.adj⟩

/-- `nx.node_link_graph(data)`: rebuild the graph from the snapshot. -/
def nodeLinkGraph (s : Snapshot) : MGraph := ⟨s.nodes, s.links⟩

/-- `PersonalGraph.load_from_json` (lines 705-731): replace the graph, rebuild
`_track_nodes` and `_artist_nodes` from the imported nodes' `node_type`
attributes — and leave `_user_nodes` untouched (it is never rebuilt). -/
def loadFromJson (pg : PGraph) (s : Snapshot) : PGraph :=
  let g := nodeLinkGraph s
  { graph := g
    trackNodes := (g.nodes.filter fun p => p.2.nodeType = some "track").map (·.1)
    artistNodes := (g.nodes.filter fun p => p.2.nodeType = some "artist").map (·.1)
    userNodes := pg.userNodes }

/-- The node-set counters of `get_graph_stats` (lines 505-507): the lengths of
the three internal id sets, not counts over the graph. -/
structure NodeSetCounts where
  trackNodes : Nat
  userNodes : Nat
  artistNodes : Nat
deriving DecidableEq

/-- `get_graph_stats`' `track_nodes` / `user_nodes` / `artist_nodes` fields. -/
def graphStatsCounts (pg : PGraph) : NodeSetCounts :=
  ⟨pg.trackNodes.length, pg.userNodes.length, pg.artistNodes.length⟩

/-- The invariant `build_from_seed` maintains through `_add_user_node`: the
`_user_nodes` set is in bijection with the user-typed nodes of the graph; we
state it on the counts. -/
def userNodesMatch (pg : PGraph) : Prop :=
  (pg.graph.nodes.filter fun p => p.2.nodeType = some "user").length
    = pg.userNodes.length

/-- A frontier entry within the one-hop bound: the initial seed entry, or an
already-linked neighbor enqueued at depth ≥ 1. -/
def entryOk (seed : Nat) (g : MGraph) (q : Nat × Nat) : Prop :=
  (q.2 = 0 ∧ q.1 = seed) ∨ (1 ≤ q.2 ∧ hasEdge g (PyKey.pyInt seed) (PyKey.pyInt q.1))

/-- The BFS invariant for `max_depth = 1`: every graph node is the seed or a
direct successor of the seed, every queue entry is within the bound, and every
edge leaves the seed. -/
def bfsInv (seed : Nat) (st : BfsState) : Prop :=
  (∀ p ∈ st.pg.graph.nodes,
      p.1 = PyKey.pyInt seed ∨ hasEdge st.pg.graph (PyKey.pyInt seed) p.1)
  ∧ (∀ q ∈ st.queue, entryOk seed st.pg.graph q)
  ∧ (∀ e ∈ st.pg.graph.adj, e.1 = PyKey.pyInt seed)

/-- A `PersonalGraph` holding one user node, built through `_add_user_node`
(witness input for the load round-trip loss). -/
def pgC10 : PGraph := addUserNode emptyPGraph 5 none

/-! ## Deep Harvest Engine (deep_harvest.py)

The remote client is a record of paginated fetch operations, each returning a
page or a raised exception (`Except.error`).  The Python standard-library text
helpers the engine leans on — `re.findall` and
`difflib.SequenceMatcher(...).ratio()` — are modelled as an oracle record
`TextLib`; the engine passes them the literal patterns/strings of the source,
and every verified property holds for every oracle. -/

/-- A playlist payload with its embedded member tracks (the fields
`cache_playlist` and `_harvest_playlist_tracks` read). -/
structure PlaylistData where
  id : Option Nat
  title : Option String
  user : Option UserData
  trackCount : Nat
  permalinkUrl : Option String
  tracks : List TrackData

/-- The remote graph source (`SCClient`) as the engine calls it: each operation
takes (id-or-query, limit, offset) and returns a page or raises. -/
structure SCClient where
  trackFavoriters : Nat → Nat → Nat → Except Unit (List UserData)
  trackReposters : Nat → Nat → Nat → Except Unit (List UserData)
  userLikes : Nat → Nat → Nat → Except Unit (List TrackData)
  userPlaylists : Nat → Nat → Nat → Except Unit (List PlaylistData)
  searchTracks : String → Nat → Nat → Except Unit (List TrackData)

/-- The Python text-processing library surface used by the engine:
`re.findall(pattern, text)` (returning the relevant capture of each match) and
`difflib.SequenceMatcher(None, a, b).ratio()`. -/
structure TextLib where
  reFindall : String → String → List String
  sequenceRatio : String → String → ℚ

/-- `DeepHarvestEngine.__init__` configuration with its aggressive defaults
(lines 56-64). -/
structure HarvestConfig where
  maxUsersPerTrack : Nat := 500
  maxTracksPerUser : Nat := 500
  maxPlaylists : Nat := 200
  maxArtistTracks : Nat := 1000
  fuzzySearchLimit : Nat := 100
  nameSimilarityThreshold : ℚ := 6/10
  enableCommentaryLayer : Bool := true
  enableLabelLayer : Bool := true
  enableContextualLayer : Bool := true

/-- The `harvest_stats` counters (lines 70-78). -/
structure HarvestStats where
  tracksCollected : Nat
  usersCollected : Nat
  playlistsCollected : Nat
  artistsCollected : Nat
  labelsDetected : Nat
  entitiesExtracted : Nat
  apiRequests : Nat
deriving DecidableEq

/-- The reset statistics (`{k: 0 for k in self.harvest_stats}`, line 100). -/
def zeroStats : HarvestStats := ⟨0, 0, 0, 0, 0, 0, 0⟩

/-- The engine's mutable state: the cache it writes into and the counters. -/
structure HState where
  cache : Cache
  stats : HarvestStats
deriving DecidableEq

/-- Add a page count to `api_requests` (the per-page `+= 1` of the paginator,
summed). -/
def bumpRequests (st : HState) (n : Nat) : HState :=
  { st with stats := { st.stats with apiRequests := st.stats.apiRequests + n } }

/-- `INSERT OR REPLACE INTO users` keyed on `user_id`. -/
def usersUpsert (us : List UserRow) (r : UserRow) : List UserRow :=
  (us.filter fun x => ¬ x.userId = r.userId) ++ [r]

/-- `TrackCache.cache_user` (track_cache.py lines 341-359): fail fast on a
missing id, else upsert with defaulting. -/
def cacheUserData (c : Cache) (u : UserData) : Except String Cache :=
  match u.id with
  | none => .error "ValueError: User data must contain 'id' field"
  | some uid =>
    .ok { c with
      users := usersUpsert c.users
        ⟨uid, u.username.getD "Unknown", u.permalinkUrl, u.followersCount⟩ }

/-- `INSERT OR REPLACE INTO playlists` keyed on `playlist_id`. -/
def playlistsUpsert (ps : List PlaylistRow) (r : PlaylistRow) : List PlaylistRow :=
  (ps.filter fun x => ¬ x.playlistId = r.playlistId) ++ [r]

/-- `TrackCache.cache_playlist` (lines 361-383). -/
def cachePlaylistData (c : Cache) (p : PlaylistData) : Except String Cache :=
  match p.id with
  | none => .error "ValueError: Playlist data must contain 'id' field"
  | some pid =>
    .ok { c with
      playlists := playlistsUpsert c.playlists
        ⟨pid, p.title.getD "Untitled", p.user.bind (·.id), p.trackCount,
          p.permalinkUrl⟩ }

/-- `TrackCache.cache_track` (lines 214-262) on the cache read-model. -/
def cacheTrackDataOp (c : Cache) (d : TrackData) : Except String Cache :=
  match d.id with
  | none => .error "ValueError: Track data must contain 'id' field"
  | some tid => .ok { c with tracks := tracksUpsert c.tracks (trackRowOfData d tid) }

/-- `INSERT OR REPLACE INTO user_engagements` keyed on
`(user_id, track_id, engagement_type)`. -/
def engUpsert (es : List EngRow) (r : EngRow) : List EngRow :=
  (es.filter fun x =>
    ¬(x.userId = r.userId ∧ x.trackId = r.trackId ∧ x.engagementType = r.engagementType)) ++ [r]

/-- `TrackCache.add_user_engagement` (lines 559-578) with `engaged_at = None`. -/
def addUserEngagementOp (c : Cache) (uid tid : Nat) (ty : String) (cnt : Nat) :
    Cache :=
  { c with engagements := engUpsert c.engagements ⟨uid, tid, ty, cnt, none⟩ }

/-- `TrackCache.cache_playlist_tracks` (lines 385-407) on the read-model: the
member tracks (via the nested `cache_tracks_batch`), then the bridge rows,
skipping id-less payloads while still counting their positions. -/
def cachePlaylistTracksOp (c : Cache) (pid : Nat) (tracks : List TrackData) :
    Cache :=
  let c :=
    { c with
      tracks := tracks.foldl
        (fun (ts : List TrackRow) (d : TrackData) =>
          match d.id with
          | none => ts
          | some tid => tracksUpsert ts (trackRowOfData d tid))
        c.tracks }
  { c with
    playlistTracks := (pyEnumerate tracks).foldl
      (fun (ps : List PlaylistTrackRow) (e : TrackData × Nat) =>
        match e.1.id with
        | none => ps
        | some tid => ptUpsert ps ⟨pid, tid, e.2⟩)
      c.playlistTracks }

/-- A Python insertion-ordered dict upsert (used for the
`{u['id']: u for u in likers + reposters}` comprehension: key order is first
insertion, value is the last assignment). -/
def pyDictUpsert (m : List (Nat × UserData)) (k : Nat) (v : UserData) :
    List (Nat × UserData) :=
  if (m.find? fun p => p.1 = k).isSome then
    m.map fun p => if p.1 = k then (k, v) else p
  else m ++ [(k, v)]

/-- `DeepHarvestEngine._cache_track_data` (lines 463-471): cache the track and
count it, then cache the embedded artist object when present (which raises if
that object lacks an id). -/
def harvestCacheTrackData (st : HState) (d : TrackData) : Except String HState :=
  match d.id with
  | none => .ok st
  | some _ => do
    let c ← cacheTrackDataOp st.cache d
    let st : HState := ⟨c,
      { st.stats with tracksCollected := st.stats.tracksCollected + 1 }⟩
    match d.user with
    | none => .ok st
    | some u => do
      let c ← cacheUserData st.cache u
      .ok { st with cache := c }

/-- `DeepHarvestEngine._fetch_and_cache_track` (lines 451-461): return the
cached raw payload; a track that is not cached is not fetched (no direct track
fetch in the v1 API) — the failure is logged and `None` returned. -/
def fetchAndCacheTrack (c : Cache) (tid : Nat) : Option TrackData :=
  match getTrack c tid with
  | some t => some t.rawJson
  | none => none

/-- Phase 1, `_harvest_user_depth` (lines 161-224): fetch all likers and
reposters, dedupe by user id, then per user cache the user, record the seed
`like` engagement, fetch the user's entire like library, and cache every
library track plus its `like` engagement. -/
def harvestUserDepth (client : SCClient) (cfg : HarvestConfig) (st : HState)
    (trackId : Nat) : Except String HState := do
  let likersR := fetchAllPaginated (fun off => client.trackFavoriters trackId 50 off)
    cfg.maxUsersPerTrack
  let st := bumpRequests st likersR.2
  let repostersR := fetchAllPaginated (fun off => client.trackReposters trackId 50 off)
    cfg.maxUsersPerTrack
  let st := bumpRequests st repostersR.2
  let allUsers := (likersR.1 ++ repostersR.1).foldl
    (fun m u => match u.id with
      | none => m
      | some i => pyDictUpsert m i u) []
  allUsers.foldlM
    (fun st entry => do
      let c ← cacheUserData st.cache entry.2
      let st : HState := ⟨c,
        { st.stats with usersCollected := st.stats.usersCollected + 1 }⟩
      let st : HState := { st with
        cache := addUserEngagementOp st.cache entry.1 trackId "like" 1 }
      let libraryR := fetchAllPaginated (fun off => client.userLikes entry.1 50 off)
        cfg.maxTracksPerUser
      let st := bumpRequests st libraryR.2
      libraryR.1.foldlM
        (fun st liked =>
          match liked.id with
          | none => .ok st
          | some lid => do
            let st ← harvestCacheTrackData st liked
            .ok { st with
              cache := addUserEngagementOp st.cache entry.1 lid "like" 1 })
        st)
    st

/-- `_harvest_playlist_tracks` (lines 473-491): cache the playlist and count
it; when it embeds tracks, cache each (with an id) and then the
playlist-membership rows. -/
def harvestPlaylistTracksOp (st : HState) (p : PlaylistData) :
    Except String HState :=
  match p.id with
  | none => .ok st
  | some pid => do
    let c ← cachePlaylistData st.cache p
    let st : HState := ⟨c,
      { st.stats with playlistsCollected := st.stats.playlistsCollected + 1 }⟩
    if p.tracks.isEmpty then .ok st
    else do
      let st ← p.tracks.foldlM
        (fun st tr =>
          match tr.id with
          | none => .ok st
          | some _ => harvestCacheTrackData st tr)
        st
      .ok { st with cache := cachePlaylistTracksOp st.cache pid p.tracks }

/-- Phase 2, `_harvest_playlist_depth` (lines 226-253): fetch the seed
artist's playlists (when the seed has an artist) and harvest each. -/
def harvestPlaylistDepth (client : SCClient) (cfg : HarvestConfig) (st : HState)
    (seedTrack : TrackData) : Except String HState :=
  match seedTrack.user.bind (·.id) with
  | none => .ok st
  | some artistId => do
    let plsR := fetchAllPaginated (fun off => client.userPlaylists artistId 50 off)
      cfg.maxPlaylists
    let st := bumpRequests st plsR.2
    plsR.1.foldlM
      (fun st p =>
        match p.id with
        | none => .ok st
        | some _ => harvestPlaylistTracksOp st p)
      st

/-- Phase 3, `_harvest_artist_depth` (lines 255-295): cache the seed's artist,
search for the quoted username and cache the hits whose embedded artist id
matches. -/
def harvestArtistDepth (client : SCClient) (cfg : HarvestConfig) (st : HState)
    (seedTrack : TrackData) : Except String HState :=
  match seedTrack.user with
  | none => .ok st
  | some artist =>
    match artist.id with
    | none => .ok st
    | some artistId => do
      let c ← cacheUserData st.cache artist
      let st : HState := ⟨c,
        { st.stats with artistsCollected := st.stats.artistsCollected + 1 }⟩
      let q := "\"" ++ artist.username.getD "" ++ "\""
      let resultsR := fetchAllPaginated (fun off => client.searchTracks q 50 off)
        cfg.maxArtistTracks
      let st := bumpRequests st resultsR.2
      let confirmed := resultsR.1.filter fun t => (t.user.bind (·.id)) = some artistId
      confirmed.foldlM (fun st t => harvestCacheTrackData st t) st

/-- The stopword list of `_extract_key_terms` (lines 533-536). -/
def harvestStopwords : List String :=
  ["the", "a", "an", "and", "or", "but", "in", "on", "at", "to", "for",
   "of", "with", "by", "from", "as", "is", "was", "are", "were", "been"]

/-- `_extract_key_terms` (lines 531-542): the alphabetic words of the
lower-cased text (via `re.findall`), minus stopwords and words of length ≤ 2. -/
def extractKeyTerms (lib : TextLib) (text : String) : List String :=
  (lib.reFindall "\\b[a-zA-Z]+\\b" text.toLower).filter
    fun w => w ∉ harvestStopwords ∧ 2 < w.length

/-- `_string_similarity` (lines 544-546): the SequenceMatcher ratio of the
lower-cased strings. -/
def stringSimilarityM (lib : TextLib) (s1 s2 : String) : ℚ :=
  lib.sequenceRatio s1.toLower s2.toLower

/-- Phase 4, `_harvest_semantic_depth` (lines 297-329): skip when the title is
empty; otherwise search for the top 3 key terms and cache every hit whose
title is at least `name_similarity_threshold` similar to the seed title. -/
def harvestSemanticDepth (client : SCClient) (lib : TextLib)
    (cfg : HarvestConfig) (st : HState) (seedTrack : TrackData) :
    Except String HState :=
  let title := seedTrack.title.getD ""
  if title = "" then .ok st
  else
    (extractKeyTerms lib title).take 3 |>.foldlM
      (fun st term => do
        let resultsR := fetchAllPaginated (fun off => client.searchTracks term 50 off)
          cfg.fuzzySearchLimit
        let st := bumpRequests st resultsR.2
        resultsR.1.foldlM
          (fun st t =>
            if cfg.nameSimilarityThreshold
                ≤ stringSimilarityM lib title (t.title.getD "") then
              harvestCacheTrackData st t
            else .ok st)
          st)
      st

/-- Phase 5, `_harvest_commentary_depth` (lines 331-339): a placeholder — the
v1 API has no comment endpoints, so it logs and does nothing. -/
def harvestCommentaryDepth (st : HState) (_trackId : Nat) : HState := st

/-- Phase 6, `_harvest_label_depth` (lines 341-394): collect label names from
the `label_name` field and the two description regex patterns, count them, and
for the top 3 search the catalog, caching only hits whose own label field
contains the searched label (case-insensitive substring). -/
def harvestLabelDepth (client : SCClient) (lib : TextLib) (_cfg : HarvestConfig)
    (st : HState) (seedTrack : TrackData) : Except String HState :=
  let description := seedTrack.description.getD ""
  let labelField := seedTrack.labelName.getD ""
  let patternLabels :=
    (lib.reFindall "released (?:by|on) ([A-Z][A-Za-z\\s]+(?:Records|Music|Label))"
        description
      ++ lib.reFindall "©\\s*(\\d{4})?\\s*([A-Z][A-Za-z\\s]+(?:Records|Music|Label))"
        description).map (·.trim)
  let labelsFound :=
    ((if labelField ≠ "" then [labelField] else []) ++ patternLabels).dedup
  if labelsFound.isEmpty then .ok st
  else
    let st : HState := { st with stats :=
      { st.stats with labelsDetected := st.stats.labelsDetected + labelsFound.length } }
    (labelsFound.take 3).foldlM
      (fun st label => do
        let catalogR := fetchAllPaginated (fun off => client.searchTracks label 50 off)
          200
        let st := bumpRequests st catalogR.2
        catalogR.1.foldlM
          (fun st t =>
            if List.IsInfix label.toLower.toList (t.labelName.getD "").toLower.toList then
              harvestCacheTrackData st t
            else .ok st)
          st)
      st

/-- Phase 7, `_harvest_contextual_entities` (lines 396-447): extract
`@mentions` from the description and featuring/remix/producer credits from
title+description (splitting multi-artist credits on commas and ampersands),
count them, and search for up to 10 entities, caching all hits. -/
def harvestContextualEntities (client : SCClient) (lib : TextLib)
    (_cfg : HarvestConfig) (st : HState) (seedTrack : TrackData) :
    Except String HState :=
  let title := seedTrack.title.getD ""
  let description := seedTrack.description.getD ""
  let mentions := lib.reFindall "@([a-zA-Z0-9_-]+)" description
  let featMatches :=
    lib.reFindall "(?:feat\\.|ft\\.|featuring)\\s+([A-Za-z0-9\\s&,]+?)(?:\\s|$|\\))"
      (title ++ " " ++ description)
    ++ lib.reFindall "(?:remix by|remixed by|prod\\. by)\\s+([A-Za-z0-9\\s&,]+?)(?:\\s|$|\\))"
      (title ++ " " ++ description)
  let splitArtists := featMatches.foldl
    (fun acc m => acc ++ ((m.split fun ch => ch = ',' ∨ ch = '&').map
      (·.trim)).filter (· ≠ ""))
    []
  let entities := (mentions ++ splitArtists).dedup
  if entities.isEmpty then .ok st
  else
    let st : HState := { st with stats :=
      { st.stats with entitiesExtracted := st.stats.entitiesExtracted + entities.length } }
    (entities.take 10).foldlM
      (fun st entity => do
        let resultsR := fetchAllPaginated (fun off => client.searchTracks entity 20 off)
          50
        let st := bumpRequests st resultsR.2
        resultsR.1.foldlM (fun st t => harvestCacheTrackData st t) st)
      st

/-- `DeepHarvestEngine.deep_harvest` (lines 80-159): reset the statistics,
resolve the seed — returning the (all-zero) statistics at once when it cannot
be resolved, without raising — then run the seven phases in order (5-7 behind
their toggles) and return the accumulated statistics. -/
def deepHarvest (client : SCClient) (lib : TextLib) (cfg : HarvestConfig)
    (st : HState) (seedTrackId : Nat) : Except String (HarvestStats × HState) := do
  let st : HState := { st with stats := zeroStats }
  match fetchAndCacheTrack st.cache seedTrackId with
  | none => .ok (st.stats, st)
  | some seedTrack => do
    let st ← harvestUserDepth client cfg st seedTrackId
    let st ← harvestPlaylistDepth client cfg st seedTrack
    let st ← harvestArtistDepth client cfg st seedTrack
    let st ← harvestSemanticDepth client lib cfg st seedTrack
    let st : HState := if cfg.enableCommentaryLayer then
      harvestCommentaryDepth st seedTrackId else st
    let st ← if cfg.enableLabelLayer then
      harvestLabelDepth client lib cfg st seedTrack else .ok st
    let st ← if cfg.enableContextualLayer then
      harvestContextualEntities client lib cfg st seedTrack else .ok st
    .ok (st.stats, st)

/-- A remote client whose every call returns an empty page (counterexample
input). -/
def clientConst : SCClient :=
  ⟨fun _ _ _ => .ok [], fun _ _ _ => .ok [], fun _ _ _ => .ok [],
   fun _ _ _ => .ok [], fun _ _ _ => .ok []⟩

/-- A text library whose every call returns nothing (counterexample input). -/
def libConst : TextLib := ⟨fun _ _ => [], fun _ _ => 0⟩

/-! ## Theorems -/

/-- C6: for distinct ids `a < b` and any payload, `add_user_similarity(b, a, …)`
(with the per-user totals given in argument order) and `add_user_similarity(a, b, …)`
produce the same successful write; that write stores the row canonically keyed
`(a, b)` for the given similarity type, the store holds exactly one row with that
key afterwards, and on any store satisfying the `user_id_a < user_id_b` invariant
every successful call preserves it, so no row with `user_id_a > user_id_b` is
ever stored. -/
theorem addUserSimilarity_canonical (s : List SimRow) (a b : Nat) (h : a < b)
    (ty : String) (score : ℚ) (common ta tb : Nat) :
    addUserSimilarity s b a ty score common tb ta
        = addUserSimilarity s a b ty score common ta tb
    ∧ addUserSimilarity s a b ty score common ta tb
        = .ok (simUpsert s ⟨a, b, ty, score, common, ta, tb⟩)
    ∧ ((simUpsert s ⟨a, b, ty, score, common, ta, tb⟩).countP
        fun r => decide (r.userIdA = a ∧ r.userIdB = b ∧ r.simType = ty)) = 1
    ∧ (∀ (ua ub ca ta' tb' : Nat) (sc : ℚ) (s' : List SimRow),
        addUserSimilarity s ua ub ty sc ca ta' tb' = .ok s' →
        (∀ x ∈ s, x.userIdA < x.userIdB) → ∀ x ∈ s', x.userIdA < x.userIdB) := by
  have hba : b > a := h
  have hnab : ¬ a > b := by omega
  refine ⟨?_, ?_, ?_, ?_⟩
  · simp only [addUserSimilarity, if_pos hba, if_neg hnab]
  · simp only [addUserSimilarity, if_neg hnab, if_pos h]
  · have : ∀ l : List SimRow,
        ((l.filter fun x =>
          ¬(x.userIdA = a ∧ x.userIdB = b ∧ x.simType = ty)).countP
            fun r => decide (r.userIdA = a ∧ r.userIdB = b ∧ r.simType = ty)) = 0 := by
      intro l
      rw [List.countP_eq_zero]
      intro r hr
      have hr' := List.of_mem_filter hr
      simp only [decide_not, Bool.not_eq_true', decide_eq_false_iff_not] at hr'
      simpa using hr'
    simp only [simUpsert, List.countP_append, this s, Nat.zero_add,
      List.countP_cons, List.countP_nil]
    rfl
  · intro ua ub ca ta' tb' sc s' hok hinv x hx
    unfold addUserSimilarity at hok
    by_cases hcmp : ua > ub
    · -- the canonicalised guard `ub < ua` is the same proposition as `ua > ub`
      simp only [if_pos hcmp] at hok
      cases hok
      rcases List.mem_append.1 hx with hx | hx
      · exact hinv x (List.mem_of_mem_filter hx)
      · simp only [List.mem_singleton] at hx
        subst hx
        exact hcmp
    · simp only [if_neg hcmp] at hok
      by_cases hlt : ua < ub
      · simp only [if_pos hlt] at hok
        cases hok
        rcases List.mem_append.1 hx with hx | hx
        · exact hinv x (List.mem_of_mem_filter hx)
        · simp only [List.mem_singleton] at hx
          subst hx
          exact hlt
      · simp only [if_neg hlt] at hok
        cases hok

/-- Witness for `addUserSimilarity_canonical` at `a = 1 < b = 2` on the empty
store. -/
theorem addUserSimilarity_canonical_witness :
    addUserSimilarity ([] : List SimRow) 2 1 "jaccard_likes" (1/3) 2 4 4
      = addUserSimilarity [] 1 2 "jaccard_likes" (1/3) 2 4 4 :=
  (addUserSimilarity_canonical [] 1 2 (by decide) "jaccard_likes" (1/3) 2 4 4).1

/-- Auxiliary for C5: if every page before some offset is full (length exactly
`page_size = 50`) and the fetch at the next offset raises, the paginator loop
returns exactly the accumulated records plus those pages, counting one request
per successful page (the raising fetch is not counted: the increment follows
the call). -/
theorem fetchAllPaginatedAux_error {α : Type} (fetch : Nat → Except Unit (List α))
    (maxResults : Nat) :
    ∀ (ps : List (List α)) (fuel offset : Nat) (acc : List α) (requests : Nat),
    (∀ i (h : i < ps.length),
        fetch (offset + 50 * i) = .ok (ps.get ⟨i, h⟩) ∧ (ps.get ⟨i, h⟩).length = 50) →
    fetch (offset + 50 * ps.length) = .error () →
    acc.length + 50 * ps.length < maxResults →
    ps.length < fuel →
    fetchAllPaginatedAux fetch maxResults fuel acc offset requests
      = (acc ++ ps.flatten, requests + ps.length) := by
  intro ps
  induction ps with
  | nil =>
    intro fuel offset acc requests _ herr hcap hfuel
    match fuel, hfuel with
    | fuel + 1, _ =>
      have hacc : acc.length < maxResults := by simpa using hcap
      simp only [fetchAllPaginatedAux, if_pos hacc]
      rw [show offset + 50 * ([] : List (List α)).length = offset by simp] at herr
      rw [herr]
      simp
  | cons p rest ih =>
    intro fuel offset acc requests hfull herr hcap hfuel
    match fuel, hfuel with
    | fuel + 1, hfuel =>
      have hacc : acc.length < maxResults := by
        have : 0 < 50 * (p :: rest).length := by simp
        omega
      have hp := hfull 0 (by simp)
      have hp1 : fetch offset = .ok p := by simpa using hp.1
      have hp2 : p.length = 50 := by simpa using hp.2
      have hne : p.isEmpty = false := by
        cases p with
        | nil => simp at hp2
        | cons a l => rfl
      have hns : ¬ p.length < 50 := by omega
      simp only [fetchAllPaginatedAux, if_pos hacc, hp1]
      rw [if_neg (by simp [hne]), if_neg hns]
      have hrec := ih fuel (offset + 50) (acc ++ p) (requests + 1)
        (fun i h => by
          have := hfull (i + 1) (by simpa using Nat.succ_lt_succ h)
          constructor
          · rw [show offset + 50 + 50 * i = offset + 50 * (i + 1) by ring]
            simpa using this.1
          · simpa using this.2)
        (by
          rw [show offset + 50 + 50 * rest.length = offset + 50 * (rest.length + 1) by ring]
          simpa using herr)
        (by
          simp only [List.length_append, hp2]
          simp only [List.length_cons] at hcap
          omega)
        (by
          simp only [List.length_cons] at hfuel
          omega)
      rw [hrec]
      simp [List.append_assoc]
      omega

/-- Auxiliary for C4: when every page before some offset is full and the page
at that offset is short (fewer than 50 records, the empty page included), the
paginator loop appends the full pages and the short page and stops, counting
one request per fetched page. -/
theorem fetchAllPaginatedAux_short {α : Type} (fetch : Nat → Except Unit (List α))
    (maxResults : Nat) :
    ∀ (ps : List (List α)) (last : List α) (fuel offset : Nat) (acc : List α)
      (requests : Nat),
    (∀ i (h : i < ps.length),
        fetch (offset + 50 * i) = .ok (ps.get ⟨i, h⟩) ∧ (ps.get ⟨i, h⟩).length = 50) →
    fetch (offset + 50 * ps.length) = .ok last →
    last.length < 50 →
    acc.length + 50 * ps.length < maxResults →
    ps.length < fuel →
    fetchAllPaginatedAux fetch maxResults fuel acc offset requests
      = (acc ++ ps.flatten ++ last, requests + ps.length + 1) := by
  intro ps
  induction ps with
  | nil =>
    intro last fuel offset acc requests _ hlast hshort hcap hfuel
    match fuel, hfuel with
    | fuel + 1, _ =>
      have hacc : acc.length < maxResults := by simpa using hcap
      rw [show offset + 50 * ([] : List (List α)).length = offset by simp] at hlast
      simp only [fetchAllPaginatedAux, if_pos hacc, hlast]
      by_cases hemp : last.isEmpty
      · rw [if_pos hemp]
        have : last = [] := List.isEmpty_iff.1 hemp
        subst this
        simp
      · rw [if_neg hemp, if_pos hshort]
        simp
  | cons p rest ih =>
    intro last fuel offset acc requests hfull hlast hshort hcap hfuel
    match fuel, hfuel with
    | fuel + 1, hfuel =>
      have hacc : acc.length < maxResults := by
        have : 0 < 50 * (p :: rest).length := by simp
        omega
      have hp := hfull 0 (by simp)
      have hp1 : fetch offset = .ok p := by simpa using hp.1
      have hp2 : p.length = 50 := by simpa using hp.2
      have hne : p.isEmpty = false := by
        cases p with
        | nil => simp at hp2
        | cons a l => rfl
      have hns : ¬ p.length < 50 := by omega
      simp only [fetchAllPaginatedAux, if_pos hacc, hp1]
      rw [if_neg (by simp [hne]), if_neg hns]
      have hrec := ih last fuel (offset + 50) (acc ++ p) (requests + 1)
        (fun i h => by
          have := hfull (i + 1) (by simpa using Nat.succ_lt_succ h)
          constructor
          · rw [show offset + 50 + 50 * i = offset + 50 * (i + 1) by ring]
            simpa using this.1
          · simpa using this.2)
        (by
          rw [show offset + 50 + 50 * rest.length = offset + 50 * (rest.length + 1) by ring]
          simpa using hlast)
        hshort
        (by
          simp only [List.length_append, hp2]
          simp only [List.length_cons] at hcap
          omega)
        (by
          simp only [List.length_cons] at hfuel
          omega)
      rw [hrec]
      simp [List.append_assoc]
      omega

set_option maxRecDepth 40000 in
/-- C4: the paginator fetches pages from offset 0, stops at the first empty
page, the first page shorter than the page size 50, or once the accumulated
count reaches the cap, and truncates the result exactly to the cap: the result
never exceeds `max_results`; pages of sizes [50, 50, 30] yield exactly those
130 records in exactly 3 fetches under a generous cap; and unbounded 50-record
pages under cap 120 yield exactly the first 120 records after exactly 3
fetches. -/
theorem fetchAllPaginated_spec :
    (∀ (α : Type) (fetch : Nat → Except Unit (List α)) (maxResults : Nat),
        (fetchAllPaginated fetch maxResults).1.length ≤ maxResults)
    ∧ fetchAllPaginated pagesC4a 1000
        = ((List.range 50).map (· + 1000) ++ (List.range 50).map (· + 2000)
            ++ (List.range 30).map (· + 3000), 3)
    ∧ (fetchAllPaginated pagesC4a 1000).1.length = 130
    ∧ fetchAllPaginated pagesC4b 120 = (List.range 120, 3)
    ∧ (∀ (α : Type) (fetch : Nat → Except Unit (List α)) (maxResults : Nat)
        (ps : List (List α)) (last : List α),
        (∀ i (h : i < ps.length),
            fetch (50 * i) = .ok (ps.get ⟨i, h⟩) ∧ (ps.get ⟨i, h⟩).length = 50) →
        fetch (50 * ps.length) = .ok last → last.length < 50 →
        50 * ps.length < maxResults →
        fetchAllPaginated fetch maxResults
          = ((ps.flatten ++ last).take maxResults, ps.length + 1)) := by
  refine ⟨?_, ?_, ?_, ?_, ?_⟩
  · intro α fetch maxResults
    unfold fetchAllPaginated
    rw [List.length_take]
    exact Nat.min_le_left _ _
  · decide
  · decide
  · decide
  · intro α fetch maxResults ps last hfull hlast hshort hcap
    have hlen : ps.length < maxResults + 1 := by
      have : ps.length ≤ 50 * ps.length := by omega
      omega
    have haux := fetchAllPaginatedAux_short fetch maxResults ps last
      (maxResults + 1) 0 [] 0
      (fun i h => by simpa using hfull i h)
      (by simpa using hlast) hshort (by simpa using hcap) hlen
    unfold fetchAllPaginated
    rw [haux]
    simp

/-- Witness for the general stop-at-short-page law of `fetchAllPaginated_spec`
at the [50, 50, 30] page sequence. -/
theorem fetchAllPaginated_spec_witness :
    fetchAllPaginated pagesC4a 1000
      = (([(List.range 50).map (· + 1000),
          (List.range 50).map (· + 2000)].flatten
            ++ (List.range 30).map (· + 3000)).take 1000, 2 + 1) :=
  fetchAllPaginated_spec.2.2.2.2 Nat pagesC4a 1000
    [(List.range 50).map (· + 1000), (List.range 50).map (· + 2000)]
    ((List.range 30).map (· + 3000))
    (by
      intro i h
      simp only [List.length_cons, List.length_nil] at h
      interval_cases i
      · exact ⟨rfl, by simp⟩
      · exact ⟨rfl, by simp⟩)
    rfl
    (by simp)
    (by norm_num)

/-- C5: a page-fetch exception does not propagate out of the paginator: when
every page before some offset is full and the fetch at that offset raises, the
call returns exactly the records accumulated from the earlier pages (here below
the cap, so untruncated), counting only the successful fetches. -/
theorem fetchAllPaginated_error_partial {α : Type}
    (fetch : Nat → Except Unit (List α)) (maxResults : Nat) (ps : List (List α))
    (hfull : ∀ i (h : i < ps.length),
        fetch (50 * i) = .ok (ps.get ⟨i, h⟩) ∧ (ps.get ⟨i, h⟩).length = 50)
    (herr : fetch (50 * ps.length) = .error ())
    (hcap : 50 * ps.length < maxResults) :
    fetchAllPaginated fetch maxResults = (ps.flatten, ps.length) := by
  have hlen : ps.length < maxResults + 1 := by
    have : ps.length ≤ 50 * ps.length := by omega
    omega
  have haux := fetchAllPaginatedAux_error fetch maxResults ps (maxResults + 1) 0 [] 0
    (fun i h => by simpa using hfull i h)
    (by simpa using herr)
    (by simpa using hcap)
    hlen
  have hmem : ∀ p ∈ ps, p.length = 50 := by
    intro p hp
    rcases List.mem_iff_get.1 hp with ⟨i, rfl⟩
    exact (hfull i i.isLt).2
  have hflat : ps.flatten.length = 50 * ps.length := by
    clear haux herr hcap hlen hfull
    induction ps with
    | nil => simp
    | cons p rest ih =>
      have hp : p.length = 50 := hmem p (by simp)
      have hr := ih (fun q hq => hmem q (by simp [hq]))
      simp [List.flatten_cons, hp, hr]
      ring
  unfold fetchAllPaginated
  rw [haux]
  simp only [List.nil_append, Nat.zero_add]
  rw [List.take_of_length_le (by omega)]

/-- Witness for `fetchAllPaginated_error_partial`: one full page then a raised
exception yields exactly that page's 50 records and one counted request. -/
theorem fetchAllPaginated_error_partial_witness :
    fetchAllPaginated pagesC5 1000 = ([List.range 50].flatten, 1) :=
  fetchAllPaginated_error_partial pagesC5 1000 [List.range 50]
    (fun i h => by
      have h1 : i = 0 := by
        simp only [List.length_cons, List.length_nil] at h
        omega
      subst h1
      exact ⟨rfl, by simp⟩)
    rfl (by norm_num)

/-- C2 is false of the code: `cache_playlist_tracks` is not atomic.  On an
empty store, caching playlist 7 with the single member track 1 while the
bridge-row INSERT raises leaves the member track row committed (the nested
`_transaction` of `cache_tracks_batch` issues a connection-wide commit before
the bridge rows are written, so the outer rollback undoes only the bridge
rows): the store is not left as it was before the call.  The successful path
commits both the track row and the bridge row. -/
theorem cachePlaylistTracks_partial_commit :
    (cachePlaylistTracks connEmpty 7 [trackDataC2] (some 0)).2
        = some "sqlite3.OperationalError: disk I/O error"
    ∧ (cachePlaylistTracks connEmpty 7 [trackDataC2] (some 0)).1.committed.tracks
        = [trackRowOfData trackDataC2 1]
    ∧ (cachePlaylistTracks connEmpty 7 [trackDataC2] (some 0)).1.committed.playlistTracks
        = []
    ∧ (cachePlaylistTracks connEmpty 7 [trackDataC2] (some 0)).1.committed
        ≠ connEmpty.committed
    ∧ (cachePlaylistTracks connEmpty 7 [trackDataC2] none).1.committed
        = ⟨[trackRowOfData trackDataC2 1], [⟨7, 1, 0⟩]⟩ := by
  refine ⟨rfl, rfl, rfl, by decide, rfl⟩

/-- C9: a degenerate self-pair is rejected by both pair-relationship writers:
`add_user_similarity(u, u, …)` and `add_artist_relationship(u, u, …)` raise an
integrity error (the canonicalising swap fires only under strict inequality, and
the `CHECK (id_a < id_b)` constraint rejects an equal pair) and the stores are
left unchanged — no self-pair row is ever persisted. -/
theorem selfPair_rejected (s : List SimRow) (s2 : List ArtistRelRow) (u : Nat)
    (ty ty2 : String) (score strength : ℚ) (common ta tb ev : Nat)
    (md : Option String) :
    addUserSimilarity s u u ty score common ta tb
        = .error "IntegrityError: CHECK constraint failed: user_id_a < user_id_b"
    ∧ addUserSimilarityState s u u ty score common ta tb = s
    ∧ addArtistRelationship s2 u u ty2 strength ev md
        = .error "IntegrityError: CHECK constraint failed: artist_id_a < artist_id_b"
    ∧ addArtistRelationshipState s2 u u ty2 strength ev md = s2 := by
  have h1 : ¬ u > u := by omega
  have h2 : ¬ u < u := by omega
  refine ⟨?_, ?_, ?_, ?_⟩ <;>
    simp [addUserSimilarity, addUserSimilarityState, addArtistRelationship,
      addArtistRelationshipState, h1, h2]

/-- The canonically stored row carries the sorted pair and the given type. -/
theorem canonicalSimRow_ids (ua ub : Nat) (ty : String) (score : ℚ)
    (common ta tb : Nat) :
    (canonicalSimRow ua ub ty score common ta tb).userIdA = min ua ub
    ∧ (canonicalSimRow ua ub ty score common ta tb).userIdB = max ua ub
    ∧ (canonicalSimRow ua ub ty score common ta tb).simType = ty := by
  unfold canonicalSimRow
  split_ifs with h <;> refine ⟨?_, ?_, rfl⟩ <;> simp <;> omega

/-- Swapping the pair and the totals gives the same canonical row. -/
theorem canonicalSimRow_swap (a b : Nat) (hab : a ≠ b) (ty : String) (score : ℚ)
    (cnt ta tb : Nat) :
    canonicalSimRow b a ty score cnt tb ta
      = canonicalSimRow a b ty score cnt ta tb := by
  unfold canonicalSimRow
  split_ifs with h1 h2 h2
  · omega
  · rfl
  · rfl
  · exact absurd (by omega : a = b) hab

/-- On a distinct pair, `add_user_similarity` succeeds and upserts the
canonical row. -/
theorem addUserSimilarityState_ne (st : List SimRow) (a b : Nat) (h : a ≠ b)
    (ty : String) (score : ℚ) (common ta tb : Nat) :
    addUserSimilarityState st a b ty score common ta tb
      = simUpsert st (canonicalSimRow a b ty score common ta tb) := by
  unfold addUserSimilarityState addUserSimilarity canonicalSimRow
  by_cases hab : a > b
  · simp [hab]
  · have hlt : a < b := by omega
    simp [hab, hlt]

/-- Inserting a row whose key appears nowhere in the store appends it. -/
theorem simUpsert_no_overlap (s : List SimRow) (row : SimRow)
    (h : ∀ r ∈ s, ¬(r.userIdA = row.userIdA ∧ r.userIdB = row.userIdB
      ∧ r.simType = row.simType)) :
    simUpsert s row = s ++ [row] := by
  unfold simUpsert
  congr 1
  apply List.filter_eq_self.2
  intro r hr
  have hh := h r hr
  simp only [decide_eq_true_eq]
  tauto

/-- Both components of every visited ordered pair come from the user list. -/
theorem pairsAfter_mem_comp : ∀ (l : List Nat), ∀ p ∈ pairsAfter l, p.1 ∈ l ∧ p.2 ∈ l := by
  intro l
  induction l with
  | nil => intro p hp; simp [pairsAfter] at hp
  | cons x rest ih =>
    intro p hp
    simp only [pairsAfter, List.mem_append, List.mem_map] at hp
    rcases hp with ⟨b, hb, rfl⟩ | hp
    · exact ⟨by simp, by simp [hb]⟩
    · rcases ih p hp with ⟨h1, h2⟩
      exact ⟨by simp [h1], by simp [h2]⟩

/-- On a duplicate-free user list the visited pairs have distinct components. -/
theorem pairsAfter_ne : ∀ (l : List Nat), l.Nodup → ∀ p ∈ pairsAfter l, p.1 ≠ p.2 := by
  intro l
  induction l with
  | nil => intro _ p hp; simp [pairsAfter] at hp
  | cons x rest ih =>
    intro hnd p hp
    rcases List.nodup_cons.1 hnd with ⟨hx, hrest⟩
    simp only [pairsAfter, List.mem_append, List.mem_map] at hp
    rcases hp with ⟨b, hb, rfl⟩ | hp
    · intro h
      have hxb : x = b := h
      subst hxb
      exact hx hb
    · exact ih hrest p hp

/-- On a duplicate-free user list, distinct visited pairs have distinct
unordered keys (no unordered pair is visited twice). -/
theorem pairsAfter_pairwise : ∀ (l : List Nat), l.Nodup →
    List.Pairwise (fun p q : Nat × Nat =>
      ¬(min p.1 p.2 = min q.1 q.2 ∧ max p.1 p.2 = max q.1 q.2)) (pairsAfter l) := by
  intro l
  induction l with
  | nil => intro _; simp [pairsAfter]
  | cons x rest ih =>
    intro hnd
    rcases List.nodup_cons.1 hnd with ⟨hx, hrest⟩
    simp only [pairsAfter]
    rw [List.pairwise_append]
    refine ⟨?_, ih hrest, ?_⟩
    · rw [List.pairwise_map]
      exact hrest.imp (fun hab => by omega)
    · intro p hp q hq
      rcases List.mem_map.1 hp with ⟨b, hb, rfl⟩
      rcases pairsAfter_mem_comp rest q hq with ⟨h1, h2⟩
      have hq1 : q.1 ≠ x := fun h => hx (h ▸ h1)
      have hq2 : q.2 ≠ x := fun h => hx (h ▸ h2)
      omega

/-- Every unordered pair of distinct list members is visited in one of its two
orientations. -/
theorem pairsAfter_exists : ∀ (l : List Nat) (a b : Nat), a ∈ l → b ∈ l → a ≠ b →
    (a, b) ∈ pairsAfter l ∨ (b, a) ∈ pairsAfter l := by
  intro l
  induction l with
  | nil => intro a b ha _ _; simp at ha
  | cons x rest ih =>
    intro a b ha hb hab
    rcases List.mem_cons.1 ha with rfl | ha'
    · have hb' : b ∈ rest := by
        rcases List.mem_cons.1 hb with rfl | h
        · exact absurd rfl hab
        · exact h
      left
      simp only [pairsAfter, List.mem_append, List.mem_map]
      exact Or.inl ⟨b, hb', rfl⟩
    · rcases List.mem_cons.1 hb with rfl | hb'
      · right
        simp only [pairsAfter, List.mem_append, List.mem_map]
        exact Or.inl ⟨a, ha', rfl⟩
      · rcases ih a b ha' hb' hab with h | h
        · left
          simp only [pairsAfter, List.mem_append]
          exact Or.inr h
        · right
          simp only [pairsAfter, List.mem_append]
          exact Or.inr h

/-- One pass step either leaves the table alone (pair does not qualify,
`simWriteRow` is `none`) or upserts exactly the `simWriteRow` row. -/
theorem simStep_eq_upsert (cfg : PIConfig) (c : Cache) (s : List SimRow)
    (p : Nat × Nat) (hne : p.1 ≠ p.2) :
    (simWriteRow cfg c p.1 p.2 = none ∧ simStep cfg c s p = s)
    ∨ ∃ row, simWriteRow cfg c p.1 p.2 = some row
        ∧ simStep cfg c s p = simUpsert s row := by
  cases hargs : pairRowArgs cfg c p.1 p.2 with
  | none =>
    left
    constructor
    · simp [simWriteRow, hargs]
    · simp [simStep, hargs]
  | some args =>
    right
    obtain ⟨score, common, ta, tb⟩ := args
    refine ⟨canonicalSimRow p.1 p.2 "jaccard_likes" score common ta tb,
      by simp [simWriteRow, hargs], ?_⟩
    simp only [simStep, hargs]
    exact addUserSimilarityState_ne s p.1 p.2 hne "jaccard_likes" score common ta tb

/-- A qualifying row's key is the sorted pair with type `jaccard_likes`. -/
theorem simWriteRow_key (cfg : PIConfig) (c : Cache) (a b : Nat) (row : SimRow)
    (h : simWriteRow cfg c a b = some row) :
    row.userIdA = min a b ∧ row.userIdB = max a b
      ∧ row.simType = "jaccard_likes" := by
  unfold simWriteRow at h
  cases hargs : pairRowArgs cfg c a b with
  | none => rw [hargs] at h; cases h
  | some args =>
    rw [hargs] at h
    obtain ⟨score, common, ta, tb⟩ := args
    simp only [Option.map_some'] at h
    injection h with h'
    rw [← h']
    exact canonicalSimRow_ids a b "jaccard_likes" score common ta tb

/-- Rows of the pass's fold: a row is in the final table exactly when it was
already there or some visited pair wrote it — provided the visited pairs have
distinct components, each unordered pair is visited at most once, and the
initial table holds no row keyed like a visited pair. -/
theorem mem_simFold (cfg : PIConfig) (c : Cache) :
    ∀ (ps : List (Nat × Nat)) (s : List SimRow),
    (∀ p ∈ ps, p.1 ≠ p.2) →
    (∀ p ∈ ps, ∀ r ∈ s, ¬(r.userIdA = min p.1 p.2 ∧ r.userIdB = max p.1 p.2
        ∧ r.simType = "jaccard_likes")) →
    List.Pairwise (fun p q : Nat × Nat =>
      ¬(min p.1 p.2 = min q.1 q.2 ∧ max p.1 p.2 = max q.1 q.2)) ps →
    ∀ r, (r ∈ ps.foldl (simStep cfg c) s
      ↔ r ∈ s ∨ ∃ p ∈ ps, simWriteRow cfg c p.1 p.2 = some r) := by
  intro ps
  induction ps with
  | nil => intro s _ _ _ r; simp
  | cons p rest ih =>
    intro s hne hdisj hpw r
    rw [List.foldl_cons]
    have hpne : p.1 ≠ p.2 := hne p (by simp)
    rcases simStep_eq_upsert cfg c s p hpne with ⟨hwr, hstep⟩ | ⟨row, hwr, hstep⟩
    · rw [hstep,
        ih s (fun q hq => hne q (by simp [hq])) (fun q hq => hdisj q (by simp [hq]))
          ((List.pairwise_cons.1 hpw).2) r]
      constructor
      · rintro (h | ⟨q, hq, hqr⟩)
        · exact Or.inl h
        · exact Or.inr ⟨q, by simp [hq], hqr⟩
      · rintro (h | ⟨q, hq, hqr⟩)
        · exact Or.inl h
        · rcases List.mem_cons.1 hq with rfl | hq'
          · rw [hwr] at hqr; cases hqr
          · exact Or.inr ⟨q, hq', hqr⟩
    · have hrowkey := simWriteRow_key cfg c p.1 p.2 row hwr
      rw [hstep, simUpsert_no_overlap s row (by
        intro r' hr'
        have hk := hdisj p (by simp) r' hr'
        rw [hrowkey.1, hrowkey.2.1, hrowkey.2.2]
        exact hk)]
      rw [ih (s ++ [row]) (fun q hq => hne q (by simp [hq]))
        (by
          intro q hq r' hr'
          rcases List.mem_append.1 hr' with h | h
          · exact hdisj q (by simp [hq]) r' h
          · simp only [List.mem_singleton] at h
            subst h
            intro hcontra
            rcases hcontra with ⟨h1, h2, _⟩
            rw [hrowkey.1] at h1
            rw [hrowkey.2.1] at h2
            exact (List.pairwise_cons.1 hpw).1 q hq ⟨h1, h2⟩)
        ((List.pairwise_cons.1 hpw).2) r]
      constructor
      · rintro (hmem | ⟨q, hq, hqr⟩)
        · rcases List.mem_append.1 hmem with h | h
          · exact Or.inl h
          · simp only [List.mem_singleton] at h
            subst h
            exact Or.inr ⟨p, by simp, hwr⟩
        · exact Or.inr ⟨q, by simp [hq], hqr⟩
      · rintro (h | ⟨q, hq, hqr⟩)
        · exact Or.inl (List.mem_append_left _ h)
        · rcases List.mem_cons.1 hq with rfl | hq'
          · rw [hwr] at hqr
            injection hqr with h'
            subst h'
            exact Or.inl (List.mem_append_right _ (by simp))
          · exact Or.inr ⟨q, hq', hqr⟩

/-- Explicit description of the inner-loop computation: the pair qualifies
exactly when both liked-sets, the common count, the union and the Jaccard score
clear their thresholds, and then the stored tuple is (score, common, |A|, |B|). -/
theorem pairRowArgs_eq (cfg : PIConfig) (c : Cache) (a b : Nat) :
    pairRowArgs cfg c a b
      = (if cfg.minCommonTracks ≤ (likedTrackIdsSet c a).card
            ∧ cfg.minCommonTracks ≤ (likedTrackIdsSet c b).card
            ∧ cfg.minCommonTracks ≤ (likedTrackIdsSet c a ∩ likedTrackIdsSet c b).card
            ∧ 0 < (likedTrackIdsSet c a ∪ likedTrackIdsSet c b).card
            ∧ cfg.minSimilarityScore
                ≤ ((likedTrackIdsSet c a ∩ likedTrackIdsSet c b).card : ℚ)
                  / ((likedTrackIdsSet c a ∪ likedTrackIdsSet c b).card : ℚ)
          then some (((likedTrackIdsSet c a ∩ likedTrackIdsSet c b).card : ℚ)
                / ((likedTrackIdsSet c a ∪ likedTrackIdsSet c b).card : ℚ),
              (likedTrackIdsSet c a ∩ likedTrackIdsSet c b).card,
              (likedTrackIdsSet c a).card, (likedTrackIdsSet c b).card)
          else none) := by
  unfold pairRowArgs
  dsimp only
  by_cases h1 : (likedTrackIdsSet c a).card < cfg.minCommonTracks
  · rw [if_pos h1, if_neg (fun hc => absurd hc.1 (by omega))]
  · by_cases h2 : (likedTrackIdsSet c b).card < cfg.minCommonTracks
    · rw [if_neg h1, if_pos h2, if_neg (fun hc => absurd hc.2.1 (by omega))]
    · by_cases h3 : cfg.minCommonTracks ≤ (likedTrackIdsSet c a ∩ likedTrackIdsSet c b).card
          ∧ 0 < (likedTrackIdsSet c a ∪ likedTrackIdsSet c b).card
      · by_cases h4 : cfg.minSimilarityScore
            ≤ ((likedTrackIdsSet c a ∩ likedTrackIdsSet c b).card : ℚ)
              / ((likedTrackIdsSet c a ∪ likedTrackIdsSet c b).card : ℚ)
        · rw [if_neg h1, if_neg h2, if_pos h3, if_pos h4,
            if_pos ⟨by omega, by omega, h3.1, h3.2, h4⟩]
        · rw [if_neg h1, if_neg h2, if_pos h3, if_neg h4,
            if_neg (fun hc => h4 hc.2.2.2.2)]
      · rw [if_neg h1, if_neg h2, if_neg h3,
          if_neg (fun hc => h3 ⟨hc.2.2.1, hc.2.2.2.1⟩)]

/-- The unordered pair determines the stored row: both orientations write the
same canonical row. -/
theorem simWriteRow_symm (cfg : PIConfig) (c : Cache) (a b : Nat) (hab : a ≠ b) :
    simWriteRow cfg c b a = simWriteRow cfg c a b := by
  unfold simWriteRow
  rw [pairRowArgs_eq cfg c b a, pairRowArgs_eq cfg c a b,
    Finset.inter_comm (likedTrackIdsSet c b), Finset.union_comm (likedTrackIdsSet c b)]
  by_cases h : cfg.minCommonTracks ≤ (likedTrackIdsSet c a).card
      ∧ cfg.minCommonTracks ≤ (likedTrackIdsSet c b).card
      ∧ cfg.minCommonTracks ≤ (likedTrackIdsSet c a ∩ likedTrackIdsSet c b).card
      ∧ 0 < (likedTrackIdsSet c a ∪ likedTrackIdsSet c b).card
      ∧ cfg.minSimilarityScore
          ≤ ((likedTrackIdsSet c a ∩ likedTrackIdsSet c b).card : ℚ)
            / ((likedTrackIdsSet c a ∪ likedTrackIdsSet c b).card : ℚ)
  · rw [if_pos ⟨h.2.1, h.1, h.2.2⟩, if_pos h]
    simp only [Option.map_some']
    rw [canonicalSimRow_swap a b hab]
  · rw [if_neg (fun hc => h ⟨hc.2.1, hc.1, hc.2.2⟩), if_neg h]
    simp

/-- C7: on a cache with a fresh similarity table, the user-similarity pass
considers every unordered pair of distinct engaged users and persists a
`jaccard_likes` row keyed smaller-id-first for the pair exactly when both
liked-track sets reach `min_common_tracks`, the common-track count reaches
`min_common_tracks`, the union is non-empty, and the Jaccard score
|A ∩ B| / |A ∪ B| reaches `min_similarity_score`; any such row carries that
Jaccard score, the common count, and the two users' totals attached to the
right ids.  On the concrete liked-sets {1,2,3,4} and {3,4,5,6} the computed
score is 2/6 with `common_tracks = 2`. -/
theorem computeUserSimilarities_spec (cfg : PIConfig) (c : Cache)
    (hs : c.similarities = []) (a b : Nat)
    (ha : a ∈ userIdsWithLikes c) (hb : b ∈ userIdsWithLikes c) (hab : a ≠ b) :
    ((∃ r ∈ computeUserSimilarities cfg c,
        r.userIdA = min a b ∧ r.userIdB = max a b ∧ r.simType = "jaccard_likes")
      ↔ (cfg.minCommonTracks ≤ (likedTrackIdsSet c a).card
          ∧ cfg.minCommonTracks ≤ (likedTrackIdsSet c b).card
          ∧ cfg.minCommonTracks ≤ (likedTrackIdsSet c a ∩ likedTrackIdsSet c b).card
          ∧ 0 < (likedTrackIdsSet c a ∪ likedTrackIdsSet c b).card
          ∧ cfg.minSimilarityScore
              ≤ ((likedTrackIdsSet c a ∩ likedTrackIdsSet c b).card : ℚ)
                / ((likedTrackIdsSet c a ∪ likedTrackIdsSet c b).card : ℚ)))
    ∧ (∀ r ∈ computeUserSimilarities cfg c,
        r.userIdA = min a b → r.userIdB = max a b → r.simType = "jaccard_likes" →
          r.score = ((likedTrackIdsSet c a ∩ likedTrackIdsSet c b).card : ℚ)
              / ((likedTrackIdsSet c a ∪ likedTrackIdsSet c b).card : ℚ)
          ∧ r.commonTracks = (likedTrackIdsSet c a ∩ likedTrackIdsSet c b).card
          ∧ r.totalTracksA = (likedTrackIdsSet c (min a b)).card
          ∧ r.totalTracksB = (likedTrackIdsSet c (max a b)).card)
    ∧ pairRowArgs ⟨2, 1/10⟩ cacheC7 1 2 = some ((2 : ℚ)/6, 2, 4, 4)
    ∧ computeUserSimilarities ⟨2, 1/10⟩ cacheC7
        = [⟨1, 2, "jaccard_likes", 2/6, 2, 4, 4⟩] := by
  have hnd : (userIdsWithLikes c).Nodup := List.nodup_dedup _
  have key : ∀ r, (r ∈ computeUserSimilarities cfg c
      ↔ ∃ p ∈ pairsAfter (userIdsWithLikes c), simWriteRow cfg c p.1 p.2 = some r) := by
    intro r
    unfold computeUserSimilarities
    rw [mem_simFold cfg c (pairsAfter (userIdsWithLikes c)) c.similarities
      (pairsAfter_ne _ hnd) (by rw [hs]; intro p _ r' hr'; simp at hr')
      (pairsAfter_pairwise _ hnd) r]
    rw [hs]
    simp
  have habrow : ∀ r, simWriteRow cfg c a b = some r →
      (cfg.minCommonTracks ≤ (likedTrackIdsSet c a).card
        ∧ cfg.minCommonTracks ≤ (likedTrackIdsSet c b).card
        ∧ cfg.minCommonTracks ≤ (likedTrackIdsSet c a ∩ likedTrackIdsSet c b).card
        ∧ 0 < (likedTrackIdsSet c a ∪ likedTrackIdsSet c b).card
        ∧ cfg.minSimilarityScore
            ≤ ((likedTrackIdsSet c a ∩ likedTrackIdsSet c b).card : ℚ)
              / ((likedTrackIdsSet c a ∪ likedTrackIdsSet c b).card : ℚ))
      ∧ r = canonicalSimRow a b "jaccard_likes"
          (((likedTrackIdsSet c a ∩ likedTrackIdsSet c b).card : ℚ)
            / ((likedTrackIdsSet c a ∪ likedTrackIdsSet c b).card : ℚ))
          (likedTrackIdsSet c a ∩ likedTrackIdsSet c b).card
          (likedTrackIdsSet c a).card (likedTrackIdsSet c b).card := by
    intro r hwr
    unfold simWriteRow at hwr
    rw [pairRowArgs_eq] at hwr
    by_cases hc : cfg.minCommonTracks ≤ (likedTrackIdsSet c a).card
        ∧ cfg.minCommonTracks ≤ (likedTrackIdsSet c b).card
        ∧ cfg.minCommonTracks ≤ (likedTrackIdsSet c a ∩ likedTrackIdsSet c b).card
        ∧ 0 < (likedTrackIdsSet c a ∪ likedTrackIdsSet c b).card
        ∧ cfg.minSimilarityScore
            ≤ ((likedTrackIdsSet c a ∩ likedTrackIdsSet c b).card : ℚ)
              / ((likedTrackIdsSet c a ∪ likedTrackIdsSet c b).card : ℚ)
    · rw [if_pos hc] at hwr
      simp only [Option.map_some'] at hwr
      injection hwr with hwr
      exact ⟨hc, hwr.symm⟩
    · rw [if_neg hc] at hwr
      simp at hwr
  have hwrpos : (cfg.minCommonTracks ≤ (likedTrackIdsSet c a).card
        ∧ cfg.minCommonTracks ≤ (likedTrackIdsSet c b).card
        ∧ cfg.minCommonTracks ≤ (likedTrackIdsSet c a ∩ likedTrackIdsSet c b).card
        ∧ 0 < (likedTrackIdsSet c a ∪ likedTrackIdsSet c b).card
        ∧ cfg.minSimilarityScore
            ≤ ((likedTrackIdsSet c a ∩ likedTrackIdsSet c b).card : ℚ)
              / ((likedTrackIdsSet c a ∪ likedTrackIdsSet c b).card : ℚ)) →
      simWriteRow cfg c a b = some (canonicalSimRow a b "jaccard_likes"
          (((likedTrackIdsSet c a ∩ likedTrackIdsSet c b).card : ℚ)
            / ((likedTrackIdsSet c a ∪ likedTrackIdsSet c b).card : ℚ))
          (likedTrackIdsSet c a ∩ likedTrackIdsSet c b).card
          (likedTrackIdsSet c a).card (likedTrackIdsSet c b).card) := by
    intro hc
    unfold simWriteRow
    rw [pairRowArgs_eq, if_pos hc]
    rfl
  have reduce : ∀ r, (∃ p ∈ pairsAfter (userIdsWithLikes c),
      simWriteRow cfg c p.1 p.2 = some r) →
      r.userIdA = min a b → r.userIdB = max a b → r.simType = "jaccard_likes" →
      simWriteRow cfg c a b = some r := by
    intro r hex hk1 hk2 _
    rcases hex with ⟨p, hp, hwr⟩
    have hkey := simWriteRow_key cfg c p.1 p.2 r hwr
    have hpne := pairsAfter_ne _ hnd p hp
    have e1 : min p.1 p.2 = min a b := by rw [← hkey.1, hk1]
    have e2 : max p.1 p.2 = max a b := by rw [← hkey.2.1, hk2]
    have hpcase : (p.1 = a ∧ p.2 = b) ∨ (p.1 = b ∧ p.2 = a) := by omega
    rcases hpcase with ⟨e3, e4⟩ | ⟨e3, e4⟩
    · rw [← e3, ← e4]; exact hwr
    · rw [← simWriteRow_symm cfg c a b hab, ← e3, ← e4]; exact hwr
  have hA : (likedTrackIdsSet cacheC7 1).card = 4 := by decide
  have hB : (likedTrackIdsSet cacheC7 2).card = 4 := by decide
  have hI : (likedTrackIdsSet cacheC7 1 ∩ likedTrackIdsSet cacheC7 2).card = 2 := by
    decide
  have hU : (likedTrackIdsSet cacheC7 1 ∪ likedTrackIdsSet cacheC7 2).card = 6 := by
    decide
  have hpair : pairRowArgs ⟨2, 1/10⟩ cacheC7 1 2 = some ((2 : ℚ)/6, 2, 4, 4) := by
    rw [pairRowArgs_eq, hA, hB, hI, hU, if_pos (by norm_num)]
    norm_num
  refine ⟨?_, ?_, hpair, ?_⟩
  · constructor
    · rintro ⟨r, hr, hk1, hk2, hk3⟩
      have hwr := reduce r ((key r).1 hr) hk1 hk2 hk3
      exact (habrow r hwr).1
    · intro hcond
      have hwr := hwrpos hcond
      have hkey := canonicalSimRow_ids a b "jaccard_likes"
        (((likedTrackIdsSet c a ∩ likedTrackIdsSet c b).card : ℚ)
          / ((likedTrackIdsSet c a ∪ likedTrackIdsSet c b).card : ℚ))
        (likedTrackIdsSet c a ∩ likedTrackIdsSet c b).card
        (likedTrackIdsSet c a).card (likedTrackIdsSet c b).card
      rcases pairsAfter_exists (userIdsWithLikes c) a b ha hb hab with hp | hp
      · exact ⟨_, (key _).2 ⟨(a, b), hp, hwr⟩, hkey.1, hkey.2.1, hkey.2.2⟩
      · refine ⟨_, (key _).2 ⟨(b, a), hp, ?_⟩, hkey.1, hkey.2.1, hkey.2.2⟩
        rw [simWriteRow_symm cfg c a b hab]
        exact hwr
  · intro r hr hk1 hk2 hk3
    have hwr := reduce r ((key r).1 hr) hk1 hk2 hk3
    have hrow := (habrow r hwr).2
    subst hrow
    unfold canonicalSimRow
    by_cases hgt : a > b
    · rw [if_pos hgt]
      refine ⟨rfl, rfl, ?_, ?_⟩
      · rw [show min a b = b by omega]
      · rw [show max a b = a by omega]
    · rw [if_neg hgt]
      refine ⟨rfl, rfl, ?_, ?_⟩
      · rw [show min a b = a by omega]
      · rw [show max a b = b by omega]
  · have h1 : userIdsWithLikes cacheC7 = [1, 2] := by decide
    simp only [computeUserSimilarities]
    rw [h1]
    rw [show pairsAfter [1, 2] = [(1, 2)] from rfl]
    rw [show cacheC7.similarities = [] from rfl]
    rw [List.foldl_cons, List.foldl_nil]
    simp only [simStep]
    rw [hpair]
    dsimp only
    rw [addUserSimilarityState_ne [] 1 2 (by decide) "jaccard_likes" ((2 : ℚ)/6) 2 4 4]
    rw [show canonicalSimRow 1 2 "jaccard_likes" ((2 : ℚ)/6) 2 4 4
      = ⟨1, 2, "jaccard_likes", 2/6, 2, 4, 4⟩ from by
        unfold canonicalSimRow
        rw [if_neg (by omega)]]
    rfl

/-- Witness for `computeUserSimilarities_spec` at users 1 and 2 of the concrete
Jaccard-example cache: the pass persists their canonical `jaccard_likes` row. -/
theorem computeUserSimilarities_spec_witness :
    ∃ r ∈ computeUserSimilarities ⟨2, 1/10⟩ cacheC7,
      r.userIdA = min 1 2 ∧ r.userIdB = max 1 2 ∧ r.simType = "jaccard_likes" :=
  ((computeUserSimilarities_spec ⟨2, 1/10⟩ cacheC7 rfl 1 2 (by decide) (by decide)
      (by decide)).1).2 (by
    have hI : (likedTrackIdsSet cacheC7 1 ∩ likedTrackIdsSet cacheC7 2).card = 2 := by
      decide
    have hU : (likedTrackIdsSet cacheC7 1 ∪ likedTrackIdsSet cacheC7 2).card = 6 := by
      decide
    refine ⟨by decide, by decide, by decide, by decide, ?_⟩
    rw [hI, hU]
    norm_num)

/-- C1 fails on the code: in the spec's own example (seed 1 with direct
neighbors 2 and 3, candidate 4 connected through both with edge weights 0.5 and
0.3), `get_recommendations` reports `common_neighbors = 2` but scores the
candidate 4.0, not the claimed 1.6: the weight lookup
`graph[neighbor][candidate].get("weight", 1.0)` reads the multi-edge key dict,
always misses its integer keys, and so adds the default 1.0 per connecting
neighbor instead of the edge weights, making the score `num_common²`.  The
exclusion half of the claim does hold: with `min_common_neighbors = 3 > 2` the
candidate is dropped. -/
theorem getRecommendations_ignores_weights :
    getRecommendations graphC1 1 10 2
        = [⟨.pyInt 4, none, none, none, 2, 4, none⟩]
    ∧ (4 : ℚ) ≠ (1/2 + 3/10) * 2
    ∧ getRecommendations graphC1 1 10 3 = [] := by
  refine ⟨?_, by norm_num, rfl⟩
  have h : getRecommendations graphC1 1 10 2
      = [⟨.pyInt 4, none, none, none, 2, ((0 : ℚ) + 1 + 1) * ((2 : Nat) : ℚ), none⟩] := rfl
  rw [h, show ((0 : ℚ) + 1 + 1) * ((2 : Nat) : ℚ) = 4 by norm_num]

/-- `add_node` (attribute update) never touches the adjacency. -/
theorem setNode_adj (g : MGraph) (n : PyKey) (d : NodeData) :
    (setNode g n d).adj = g.adj := by
  unfold setNode
  split_ifs <;> rfl

/-- Implicit endpoint creation never touches the adjacency. -/
theorem addNodeIfAbsent_adj (g : MGraph) (n : PyKey) :
    (addNodeIfAbsent g n).adj = g.adj := by
  unfold addNodeIfAbsent
  split_ifs <;> rfl

/-- Node keys after `setNode`: an old key or the set key. -/
theorem setNode_nodes (g : MGraph) (n : PyKey) (d : NodeData) :
    ∀ p ∈ (setNode g n d).nodes, (∃ q ∈ g.nodes, p.1 = q.1) ∨ p.1 = n := by
  unfold setNode
  split_ifs with h
  · intro p hp
    rcases List.mem_map.1 hp with ⟨q, hq, rfl⟩
    by_cases hqn : q.1 = n
    · right
      simp [hqn]
    · left
      exact ⟨q, hq, by simp [hqn]⟩
  · intro p hp
    rcases List.mem_append.1 hp with h1 | h1
    · exact Or.inl ⟨p, h1, rfl⟩
    · simp only [List.mem_singleton] at h1
      subst h1
      exact Or.inr rfl

/-- Node keys after `addNodeIfAbsent`: an old key or the new key. -/
theorem addNodeIfAbsent_nodes (g : MGraph) (n : PyKey) :
    ∀ p ∈ (addNodeIfAbsent g n).nodes, (∃ q ∈ g.nodes, p.1 = q.1) ∨ p.1 = n := by
  unfold addNodeIfAbsent
  split_ifs with h
  · intro p hp
    exact Or.inl ⟨p, hp, rfl⟩
  · intro p hp
    rcases List.mem_append.1 hp with h1 | h1
    · exact Or.inl ⟨p, h1, rfl⟩
    · simp only [List.mem_singleton] at h1
      subst h1
      exact Or.inr rfl

/-- `addEdge` only adds nodes through the endpoint-creation step. -/
theorem addEdge_nodes_eq (g : MGraph) (u v : PyKey) (d : EdgeData) :
    (addEdge g u v d).nodes = (addNodeIfAbsent (addNodeIfAbsent g u) v).nodes := by
  unfold addEdge
  dsimp only
  split_ifs <;> rfl

/-- Node keys after `addEdge`: an old key or one of the two endpoints. -/
theorem addEdge_nodes (g : MGraph) (u v : PyKey) (d : EdgeData) :
    ∀ p ∈ (addEdge g u v d).nodes,
      (∃ q ∈ g.nodes, p.1 = q.1) ∨ p.1 = u ∨ p.1 = v := by
  intro p hp
  rw [addEdge_nodes_eq] at hp
  rcases addNodeIfAbsent_nodes (addNodeIfAbsent g u) v p hp with ⟨q, hq, he⟩ | he
  · rcases addNodeIfAbsent_nodes g u q hq with ⟨q2, hq2, he2⟩ | he2
    · exact Or.inl ⟨q2, hq2, he ▸ he2⟩
    · exact Or.inr (Or.inl (he ▸ he2))
  · exact Or.inr (Or.inr he)

/-- `addEdge` preserves every existing edge (keys are never removed). -/
theorem hasEdge_addEdge_mono (g : MGraph) (u v a b : PyKey) (d : EdgeData)
    (h : hasEdge g a b) : hasEdge (addEdge g u v d) a b := by
  rcases h with ⟨e, he, h1, h2⟩
  unfold addEdge
  dsimp only
  have he' : e ∈ (addNodeIfAbsent (addNodeIfAbsent g u) v).adj := by
    rw [addNodeIfAbsent_adj, addNodeIfAbsent_adj]
    exact he
  split_ifs with hfind
  · by_cases hc : e.1 = u ∧ e.2.1 = v
    · refine ⟨(u, v, e.2.2 ++ [(PyKey.pyInt e.2.2.length, d)]), ?_, ?_, ?_⟩
      · apply List.mem_map.2
        exact ⟨e, he', by rw [if_pos hc]⟩
      · rw [← hc.1, h1]
      · rw [← hc.2, h2]
    · refine ⟨e, ?_, h1, h2⟩
      apply List.mem_map.2
      exact ⟨e, he', by rw [if_neg hc]⟩
  · exact ⟨e, List.mem_append_left _ he', h1, h2⟩

/-- `addEdge` creates its edge. -/
theorem hasEdge_addEdge_self (g : MGraph) (u v : PyKey) (d : EdgeData) :
    hasEdge (addEdge g u v d) u v := by
  unfold addEdge
  dsimp only
  split_ifs with hfind
  · match hf : (addNodeIfAbsent (addNodeIfAbsent g u) v).adj.find? fun e =>
        e.1 = u ∧ e.2.1 = v with
    | none => rw [hf] at hfind; cases hfind
    | some e =>
      have he := List.mem_of_find?_eq_some hf
      have hc := List.find?_some hf
      simp only [decide_eq_true_eq] at hc
      refine ⟨(u, v, e.2.2 ++ [(PyKey.pyInt e.2.2.length, d)]), ?_, rfl, rfl⟩
      apply List.mem_map.2
      exact ⟨e, he, by rw [if_pos hc]⟩
  · exact ⟨(u, v, [(PyKey.pyInt 0, d)]), List.mem_append_right _ (by simp), rfl, rfl⟩

/-- Edge sources after `addEdge`: an old source or the new edge's source. -/
theorem addEdge_adj_src (g : MGraph) (u v : PyKey) (d : EdgeData) :
    ∀ e ∈ (addEdge g u v d).adj, (∃ e₀ ∈ g.adj, e.1 = e₀.1) ∨ e.1 = u := by
  unfold addEdge
  dsimp only
  intro e he
  have hadj : ∀ x, x ∈ (addNodeIfAbsent (addNodeIfAbsent g u) v).adj ↔ x ∈ g.adj := by
    intro x
    rw [addNodeIfAbsent_adj, addNodeIfAbsent_adj]
  split_ifs at he with hfind
  · rcases List.mem_map.1 he with ⟨e0, he0, rfl⟩
    by_cases hc : e0.1 = u ∧ e0.2.1 = v
    · rw [if_pos hc]
      exact Or.inr rfl
    · rw [if_neg hc]
      exact Or.inl ⟨e0, (hadj e0).1 he0, rfl⟩
  · rcases List.mem_append.1 he with h1 | h1
    · exact Or.inl ⟨e, (hadj e).1 h1, rfl⟩
    · simp only [List.mem_singleton] at h1
      subst h1
      exact Or.inr rfl

/-- `entryOk` is monotone under graph growth. -/
theorem entryOk_mono (seed : Nat) (g g' : MGraph) (q : Nat × Nat)
    (hmono : ∀ a b, hasEdge g a b → hasEdge g' a b) (h : entryOk seed g q) :
    entryOk seed g' q := by
  rcases h with h | ⟨h1, h2⟩
  · exact Or.inl h
  · exact Or.inr ⟨h1, hmono _ _ h2⟩

/-- The collection loop only reshuffles entries: every batch entry and every
remaining-queue entry comes from the initial batch or queue. -/
theorem collectBatch_sub (bs md : Nat) :
    ∀ (queue batch : List (Nat × Nat)) (visited : List Nat),
    (∀ x ∈ (collectBatch bs md batch visited queue).1, x ∈ batch ∨ x ∈ queue)
    ∧ (∀ x ∈ (collectBatch bs md batch visited queue).2.2, x ∈ queue) := by
  intro queue
  induction queue with
  | nil =>
    intro batch visited
    constructor
    · intro x hx
      simp only [collectBatch] at hx
      exact Or.inl hx
    · intro x hx
      simp only [collectBatch] at hx
      cases hx
  | cons q rest ih =>
    intro batch visited
    obtain ⟨t, d⟩ := q
    constructor
    · intro x hx
      simp only [collectBatch] at hx
      split_ifs at hx with h1 h2
      · rcases ((ih (batch ++ [(t, d)]) (visited ++ [t])).1 x hx) with h | h
        · rcases List.mem_append.1 h with h | h
          · exact Or.inl h
          · simp only [List.mem_singleton] at h
            exact Or.inr (by simp [h])
        · exact Or.inr (by simp [h])
      · rcases ((ih batch visited).1 x hx) with h | h
        · exact Or.inl h
        · exact Or.inr (by simp [h])
      · exact Or.inl hx
    · intro x hx
      simp only [collectBatch] at hx
      split_ifs at hx with h1 h2
      · exact by simp [(ih (batch ++ [(t, d)]) (visited ++ [t])).2 x hx]
      · exact by simp [(ih batch visited).2 x hx]
      · exact hx

/-- One expansion step from the seed preserves the invariant and grows the
edge set. -/
theorem bfsRelStep_inv (seed depth : Nat) (st : BfsState) (rel : RelatedResult)
    (hinv : bfsInv seed st) :
    bfsInv seed (bfsRelStep seed depth st rel)
    ∧ ∀ a b, hasEdge st.pg.graph a b → hasEdge (bfsRelStep seed depth st rel).pg.graph a b := by
  obtain ⟨hn, hq, ha⟩ := hinv
  unfold bfsRelStep
  dsimp only
  have hmono' : ∀ a b, hasEdge st.pg.graph a b →
      hasEdge (addEdge st.pg.graph (PyKey.pyInt seed) (PyKey.pyInt rel.track.trackId)
        ⟨rel.weight, rel.relationType, 1⟩) a b :=
    fun a b h => hasEdge_addEdge_mono _ _ _ _ _ _ h
  have hself : hasEdge (addEdge st.pg.graph (PyKey.pyInt seed)
      (PyKey.pyInt rel.track.trackId) ⟨rel.weight, rel.relationType, 1⟩)
      (PyKey.pyInt seed) (PyKey.pyInt rel.track.trackId) :=
    hasEdge_addEdge_self _ _ _ _
  have hcore : ∀ (qtail : List (Nat × Nat)), (∀ x ∈ qtail,
      entryOk seed (addEdge st.pg.graph (PyKey.pyInt seed) (PyKey.pyInt rel.track.trackId)
        ⟨rel.weight, rel.relationType, 1⟩) x) →
      bfsInv seed
        ⟨{ st.pg with
            graph := addEdge st.pg.graph (PyKey.pyInt seed)
              (PyKey.pyInt rel.track.trackId) ⟨rel.weight, rel.relationType, 1⟩ },
          st.visited, st.queue ++ qtail⟩ := by
    intro qtail hqt
    refine ⟨?_, ?_, ?_⟩
    · intro p hp
      rcases addEdge_nodes st.pg.graph _ _ _ p hp with ⟨q2, hq2, he⟩ | he | he
      · rcases hn q2 hq2 with h | h
        · exact Or.inl (he ▸ h)
        · exact Or.inr (hmono' _ _ (he ▸ h))
      · exact Or.inl he
      · exact Or.inr (he ▸ hself)
    · intro x hx
      rcases List.mem_append.1 hx with h | h
      · exact entryOk_mono seed st.pg.graph _ x hmono' (hq x h)
      · exact hqt x h
    · intro e he
      rcases addEdge_adj_src st.pg.graph _ _ _ e he with ⟨e0, he0, hee⟩ | hee
      · exact hee ▸ ha e0 he0
      · exact hee
  split_ifs with hvis
  · refine ⟨?_, hmono'⟩
    have h := hcore [] (by intro x hx; cases hx)
    rw [List.append_nil] at h
    exact h
  · refine ⟨?_, hmono'⟩
    apply hcore
    intro x hx
    simp only [List.mem_singleton] at hx
    subst hx
    exact Or.inr ⟨by omega, hself⟩

/-- The whole expansion loop from the seed preserves the invariant. -/
theorem foldRel_inv (seed depth : Nat) :
    ∀ (rels : List RelatedResult) (st : BfsState), bfsInv seed st →
    bfsInv seed (rels.foldl (bfsRelStep seed depth) st)
    ∧ ∀ a b, hasEdge st.pg.graph a b →
        hasEdge ((rels.foldl (bfsRelStep seed depth) st)).pg.graph a b := by
  intro rels
  induction rels with
  | nil => intro st h; exact ⟨h, fun a b hh => hh⟩
  | cons rel rest ih =>
    intro st h
    have hstep := bfsRelStep_inv seed depth st rel h
    have hrest := ih (bfsRelStep seed depth st rel) hstep.1
    exact ⟨hrest.1, fun a b hh => hrest.2 a b (hstep.2 a b hh)⟩

/-- Processing one in-bound batch entry preserves the invariant and grows the
edge set (`max_depth = 1`). -/
theorem processItem_inv (c : Cache) (seed : Nat) (st : BfsState)
    (item : Nat × Nat) (hst : bfsInv seed st)
    (hitem : entryOk seed st.pg.graph item) :
    bfsInv seed (processItem c 1 st item)
    ∧ ∀ a b, hasEdge st.pg.graph a b → hasEdge (processItem c 1 st item).pg.graph a b := by
  obtain ⟨hn, hq, ha⟩ := hst
  unfold processItem
  cases hget : getTrack c item.1 with
  | none => exact ⟨⟨hn, hq, ha⟩, fun a b h => h⟩
  | some td =>
    dsimp only
    have haddtn : (addTrackNode st.pg item.1 td).graph.adj = st.pg.graph.adj := by
      unfold addTrackNode
      split_ifs with h
      · rfl
      · exact setNode_adj _ _ _
    have hedge_tn : ∀ (a b : PyKey), hasEdge st.pg.graph a b ↔
        hasEdge (addTrackNode st.pg item.1 td).graph a b := by
      intro a b
      unfold hasEdge
      rw [haddtn]
    have haddtn_nodes : ∀ p ∈ (addTrackNode st.pg item.1 td).graph.nodes,
        (∃ q ∈ st.pg.graph.nodes, p.1 = q.1) ∨ p.1 = PyKey.pyInt item.1 := by
      intro p hp
      unfold addTrackNode at hp
      split_ifs at hp with h
      · exact Or.inl ⟨p, hp, rfl⟩
      · exact setNode_nodes _ _ _ p hp
    have hinv1 : bfsInv seed { st with pg := addTrackNode st.pg item.1 td } := by
      refine ⟨?_, ?_, ?_⟩
      · intro p hp
        rcases haddtn_nodes p hp with ⟨q2, hq2, he⟩ | he
        · rcases hn q2 hq2 with h | h
          · exact Or.inl (he ▸ h)
          · exact Or.inr ((hedge_tn _ _).1 (he ▸ h))
        · rcases hitem with ⟨_, h2⟩ | ⟨_, h2⟩
          · exact Or.inl (by rw [he, h2])
          · exact Or.inr ((hedge_tn _ _).1 (he ▸ h2))
      · intro x hx
        exact entryOk_mono seed st.pg.graph _ x (fun a b => (hedge_tn a b).1) (hq x hx)
      · intro e he
        rw [haddtn] at he
        exact ha e he
    by_cases hd : item.2 < 1
    · rw [if_pos hd]
      have hseed : item.1 = seed := by
        rcases hitem with ⟨_, h2⟩ | ⟨h1, _⟩
        · exact h2
        · omega
      rw [hseed]
      have hfold := foldRel_inv seed item.2 (getRelatedTracks c seed 20)
        { st with pg := addTrackNode st.pg seed td } (hseed ▸ hinv1)
      refine ⟨hfold.1, fun a b h => hfold.2 a b ?_⟩
      have h2 := (hedge_tn a b).1 h
      rw [hseed] at h2
      exact h2
    · rw [if_neg hd]
      exact ⟨hinv1, fun a b h => (hedge_tn a b).1 h⟩

/-- Processing a whole in-bound batch preserves the invariant. -/
theorem foldBatch_inv (c : Cache) (seed : Nat) :
    ∀ (batch : List (Nat × Nat)) (st : BfsState), bfsInv seed st →
    (∀ x ∈ batch, entryOk seed st.pg.graph x) →
    bfsInv seed (batch.foldl (processItem c 1) st) := by
  intro batch
  induction batch with
  | nil => intro st h _; exact h
  | cons x rest ih =>
    intro st h hb
    have hstep := processItem_inv c seed st x h (hb x (by simp))
    exact ih (processItem c 1 st x) hstep.1
      (fun y hy => entryOk_mono seed st.pg.graph _ y (hstep.2) (hb y (by simp [hy])))

/-- The outer BFS loop preserves the invariant for every fuel. -/
theorem bfsLoop_inv (c : Cache) (seed batchSize : Nat) :
    ∀ (fuel : Nat) (st : BfsState), bfsInv seed st →
    bfsInv seed (bfsLoop c 1 batchSize fuel st) := by
  intro fuel
  induction fuel with
  | zero => intro st h; exact h
  | succ fuel ih =>
    intro st h
    obtain ⟨hn, hq, ha⟩ := h
    unfold bfsLoop
    dsimp only
    have hsub := collectBatch_sub batchSize 1 st.queue [] st.visited
    split_ifs with hempty
    · refine ⟨hn, ?_, ha⟩
      intro x hx
      exact hq x (hsub.2 x hx)
    · apply ih
      apply foldBatch_inv c seed _ { st with
        visited := (collectBatch batchSize 1 [] st.visited st.queue).2.1,
        queue := (collectBatch batchSize 1 [] st.visited st.queue).2.2 }
      · refine ⟨hn, ?_, ha⟩
        intro x hx
        exact hq x (hsub.2 x hx)
      · intro x hx
        rcases hsub.1 x hx with h1 | h1
        · cases h1
        · exact hq x h1

/-- C8: with `max_depth = 1` (and the default Layer-1-only configuration),
`build_from_seed` never creates a node more than one hop from the seed — every
node of the resulting graph is the seed itself or the target of an edge from
the seed, for every cache (deeper related-track chains included) and every
batch size. -/
theorem buildFromSeed_depth_bound (c : Cache) (seed batchSize : Nat) :
    ∀ p ∈ (buildFromSeed c seed 1 batchSize).graph.nodes,
      p.1 = PyKey.pyInt seed
      ∨ hasEdge (buildFromSeed c seed 1 batchSize).graph (PyKey.pyInt seed) p.1 := by
  have hinit : bfsInv seed ⟨emptyPGraph, [], [(seed, 0)]⟩ := by
    refine ⟨?_, ?_, ?_⟩
    · intro p hp
      cases hp
    · intro q hq
      simp only [List.mem_singleton] at hq
      subst hq
      exact Or.inl ⟨rfl, rfl⟩
    · intro e he
      cases he
  have h := bfsLoop_inv c seed batchSize (c.relatedTracks.length + 2)
    ⟨emptyPGraph, [], [(seed, 0)]⟩ hinit
  exact h.1

/-- Witness for `buildFromSeed_depth_bound` on a cache whose related-track
chain 1 → 2 → 3 is deeper than one hop: node 2 is in the graph and within one
hop of the seed, while node 3 is not created at all. -/
theorem buildFromSeed_depth_bound_witness :
    (PyKey.pyInt 2, trackNodeData (mkTrackRow 2))
        ∈ (buildFromSeed cacheC8 1 1 50).graph.nodes
    ∧ ((PyKey.pyInt 2, trackNodeData (mkTrackRow 2)).1 = PyKey.pyInt 1
        ∨ hasEdge (buildFromSeed cacheC8 1 1 50).graph (PyKey.pyInt 1)
            (PyKey.pyInt 2, trackNodeData (mkTrackRow 2)).1)
    ∧ hasNode (buildFromSeed cacheC8 1 1 50).graph (PyKey.pyInt 3) = false :=
  ⟨by decide,
   buildFromSeed_depth_bound cacheC8 1 50 (PyKey.pyInt 2, trackNodeData (mkTrackRow 2))
     (by decide),
   by decide⟩

/-- C10: `load_from_json` rebuilds `_track_nodes` and `_artist_nodes` from the
imported snapshot's `node_type` attributes but never rebuilds `_user_nodes`;
re-importing any exported graph that contains user nodes into a fresh
`PersonalGraph` therefore reports a `user_nodes` statistic of 0 even though
user-typed nodes are present, so the user-node-set invariant maintained by
`_add_user_node` during building no longer holds. -/
theorem loadFromJson_drops_user_nodes (pg : PGraph)
    (h : ∃ p ∈ pg.graph.nodes, p.2.nodeType = some "user") :
    (graphStatsCounts (loadFromJson emptyPGraph (exportToJson pg.graph))).userNodes = 0
    ∧ (loadFromJson emptyPGraph (exportToJson pg.graph)).userNodes = []
    ∧ (∃ p ∈ (loadFromJson emptyPGraph (exportToJson pg.graph)).graph.nodes,
        p.2.nodeType = some "user")
    ∧ ¬ userNodesMatch (loadFromJson emptyPGraph (exportToJson pg.graph))
    ∧ (loadFromJson emptyPGraph (exportToJson pg.graph)).trackNodes
        = (pg.graph.nodes.filter fun p => p.2.nodeType = some "track").map (·.1)
    ∧ (loadFromJson emptyPGraph (exportToJson pg.graph)).artistNodes
        = (pg.graph.nodes.filter fun p => p.2.nodeType = some "artist").map (·.1) := by
  refine ⟨rfl, rfl, h, ?_, rfl, rfl⟩
  rcases h with ⟨p, hp, hty⟩
  have hmem : p ∈ (pg.graph.nodes.filter fun q => q.2.nodeType = some "user") :=
    List.mem_filter.2 ⟨hp, by simp [hty]⟩
  have hpos := List.length_pos_of_mem hmem
  intro hc
  unfold userNodesMatch at hc
  simp only [loadFromJson, nodeLinkGraph, exportToJson, emptyPGraph,
    List.length_nil] at hc
  omega

/-- Witness for `loadFromJson_drops_user_nodes` on a graph holding the single
user node `user_5`. -/
theorem loadFromJson_drops_user_nodes_witness :
    (graphStatsCounts (loadFromJson emptyPGraph (exportToJson pgC10.graph))).userNodes = 0
    ∧ ¬ userNodesMatch (loadFromJson emptyPGraph (exportToJson pgC10.graph)) :=
  ⟨(loadFromJson_drops_user_nodes pgC10 (by decide)).1,
   (loadFromJson_drops_user_nodes pgC10 (by decide)).2.2.2.1⟩

/-- C3's "surfaces the error" is false of the code: with the seed track absent
from the cache (and unfetchable — the v1 API has no direct track fetch), a
concrete `deep_harvest` call returns the freshly reset all-zero statistics
normally, exactly like a successful harvest that found nothing; no exception
reaches the caller.  (It does run none of the seven phases: the cache is
untouched and `api_requests` is 0.) -/
theorem deepHarvest_no_error_surfaced :
    deepHarvest clientConst libConst {} ⟨cacheEmpty, ⟨1, 2, 3, 4, 5, 6, 7⟩⟩ 42
        = .ok (zeroStats, ⟨cacheEmpty, zeroStats⟩)
    ∧ ∀ e, deepHarvest clientConst libConst {} ⟨cacheEmpty, ⟨1, 2, 3, 4, 5, 6, 7⟩⟩ 42
        ≠ .error e := by
  refine ⟨rfl, ?_⟩
  intro e h
  rw [show deepHarvest clientConst libConst {} ⟨cacheEmpty, ⟨1, 2, 3, 4, 5, 6, 7⟩⟩ 42
      = .ok (zeroStats, ⟨cacheEmpty, zeroStats⟩) from rfl] at h
  cases h

/-- C3 (amended): whenever the seed entity cannot be resolved, `deep_harvest`
aborts — it runs none of the seven phases, leaving the cache untouched and
every counter (including `api_requests`) at zero — and returns the reset
statistics to the caller; the failure is only logged, not raised. -/
theorem deepHarvest_seed_failure (client : SCClient) (lib : TextLib)
    (cfg : HarvestConfig) (st : HState) (seed : Nat)
    (h : fetchAndCacheTrack st.cache seed = none) :
    deepHarvest client lib cfg st seed = .ok (zeroStats, ⟨st.cache, zeroStats⟩) := by
  unfold deepHarvest
  dsimp only
  rw [h]

/-- Witness for `deepHarvest_seed_failure` on the empty cache with seed 42. -/
theorem deepHarvest_seed_failure_witness :
    deepHarvest clientConst libConst {} ⟨cacheEmpty, zeroStats⟩ 42
        = .ok (zeroStats, ⟨cacheEmpty, zeroStats⟩) :=
  deepHarvest_seed_failure clientConst libConst {} ⟨cacheEmpty, zeroStats⟩ 42 rfl

end SGR
